import Mathlib

/-! Block Battle starter bot: game-state synchronisation layer.

A shallow embedding of `main.go` (types `Field`, `Position`, `GameState`, the
handlers `UpdateSetting` and `UpdateGame`, the accessors `EnemyName`,
`MyFieldValue`, `EnemyFieldValue`, one iteration of the loop of `runBot`, and
`RandomBot.GetMove`) together with the small part of the Go runtime and
standard library they rely on.

Modelling conventions.

* Go `int` is the 64-bit two's complement integer.  Values are carried as `Int`;
  arithmetic that can overflow is wrapped explicitly with `wrapInt`.
* Go strings are carried as `String` (sequences of Unicode characters, that is,
  well-formed UTF-8 text); a `[]rune` is a `List Char`.
* A Go map is `Option (List (String × V))`: `none` is the nil map, `some kvs` an
  initialised map holding the entries `kvs` (at most one per key).
* A run-time panic (index out of range, assignment to an entry of a nil map)
  is the result `none` of a function returning `Option`.
* A decision component is a function of the game state and the time budget;
  the random numbers of the placeholder bot are an arbitrary stream.
-/

namespace BlockBattle

/-! ## Go integers -/

/-- Largest value of Go `int` on a 64-bit platform. -/
def maxInt : Int := 2 ^ 63 - 1

/-- Smallest value of Go `int` on a 64-bit platform. -/
def minInt : Int := -(2 ^ 63)

/-- The values of type `int`. -/
def InIntRange (z : Int) : Prop := minInt ≤ z ∧ z ≤ maxInt

instance (z : Int) : Decidable (InIntRange z) := by
  unfold InIntRange; exact inferInstance

/-- Two's complement wrap-around of an exact result into `int`. -/
def wrapInt (z : Int) : Int := (z + 2 ^ 63) % 2 ^ 64 - 2 ^ 63

/-- Go `a ^ b` on `int`: bitwise exclusive or of two's complement integers. -/
def xorInt (a b : Int) : Int := Int.xor a b

/-! ## `strconv.Atoi` -/

/-- The two failure kinds reported by `strconv` (`ErrSyntax`, `ErrRange`). -/
inductive NumError where
  | ErrSyntax
  | ErrRange
deriving DecidableEq, Repr

/-- Largest `uint64`. -/
def maxUint64 : Nat := 2 ^ 64 - 1

/-- Threshold of `ParseUint` in base 10: from here on `n * 10` overflows. -/
def uintCutoff : Nat := maxUint64 / 10 + 1

/-- The digit loop of `strconv.ParseUint(s, 10, 64)`, started with accumulator
`n`: a non-digit stops with `(0, ErrSyntax)`, an overflow stops at once with
`(maxUint64, ErrRange)`. -/
def parseUintLoop (n : Nat) : List Char → Nat × Option NumError
  | [] => (n, none)
  | c :: cs =>
    if c.isDigit then
      if n ≥ uintCutoff then (maxUint64, some NumError.ErrRange)
      else if n * 10 + (c.toNat - 48) > maxUint64 then (maxUint64, some NumError.ErrRange)
      else parseUintLoop (n * 10 + (c.toNat - 48)) cs
    else (0, some NumError.ErrSyntax)

/-- Model of `strconv.ParseUint(s, 10, 64)`. -/
def ParseUint (s : List Char) : Nat × Option NumError :=
  if s = [] then (0, some NumError.ErrSyntax) else parseUintLoop 0 s

/-- Model of `strconv.ParseInt(s, 10, 0)`: optional sign, then `ParseUint`, then
the range check against `1 << 63`. -/
def ParseInt (s : List Char) : Int × Option NumError :=
  match s with
  | [] => (0, some NumError.ErrSyntax)
  | c :: rest =>
    let neg : Bool := c = '-'
    let body := if c = '+' ∨ c = '-' then rest else s
    match ParseUint body with
    | (_, some NumError.ErrSyntax) => (0, some NumError.ErrSyntax)
    | (un, _) =>
      if neg = false ∧ un ≥ 2 ^ 63 then (maxInt, some NumError.ErrRange)
      else if neg = true ∧ un > 2 ^ 63 then (minInt, some NumError.ErrRange)
      else (if neg then -(un : Int) else (un : Int), none)

/-- Model of `strconv.Atoi`: the pair `(number, error)`, `none` meaning `nil`.
The fast path of `Atoi` for short inputs returns the same pair as `ParseInt`. -/
def Atoi (s : String) : Int × Option NumError := ParseInt s.data

/-! ## `strings.Split` and `strings.ReplaceAll` -/

/-- Pieces of a character sequence between occurrences of `sep`. -/
def splitChars (sep : Char) : List Char → List (List Char)
  | [] => [[]]
  | c :: cs =>
    if c = sep then [] :: splitChars sep cs
    else
      match splitChars sep cs with
      | [] => [[c]]
      | piece :: more => (c :: piece) :: more

/-- Model of `strings.Split(s, sep)` for a one-character separator. -/
def Split (s : String) (sep : Char) : List String :=
  (splitChars sep s.data).map String.mk

/-- Model of `strings.ReplaceAll(s, old, "")` for a one-character `old`. -/
def RemoveAll (s : String) (old : Char) : String :=
  String.mk (s.data.filter (fun c => c ≠ old))

/-! ## Slices and maps -/

/-- Go index expression `s[i]` on a slice: panics unless `0 ≤ i < len(s)`. -/
def sliceIndex {α : Type} (s : List α) (i : Int) : Option α :=
  if 0 ≤ i then s[i.toNat]? else none

/-- Go map with string keys; `none` is the nil map. -/
abbrev GoMap (V : Type) := Option (List (String × V))

/-- Comma-ok lookup `v, ok := m[k]`. -/
def mapGet {V : Type} (m : GoMap V) (k : String) : Option V :=
  match m with
  | none => none
  | some kvs => kvs.lookup k

/-- Go index expression `m[k]` on a map: the zero value when `k` is absent. -/
def mapIndex {V : Type} (zero : V) (m : GoMap V) (k : String) : V :=
  (mapGet m k).getD zero

/-- Go assignment `m[k] = v`: panics on the nil map. -/
def mapAssign {V : Type} (m : GoMap V) (k : String) (v : V) : Option (GoMap V) :=
  match m with
  | none => none
  | some kvs => some (some ((k, v) :: kvs.filter (fun e => e.1 ≠ k)))

/-- Keys present in a map. -/
def mapKeys {V : Type} (m : GoMap V) : List String :=
  match m with
  | none => []
  | some kvs => kvs.map Prod.fst

/-! ## Data model (`main.go`) -/

/-- The field data of one player (`type Field []rune`). -/
abbrev Field := List Char

/-- The zero value of `rune`. -/
def zeroRune : Char := Char.ofNat 0

/-- X,Y position in relation to a Field. -/
structure Position where
  X : Int
  Y : Int
deriving DecidableEq, Repr

/-- All the game variables that get set by the game engine. -/
structure GameState where
  TimeBank : Int
  TimePerMove : Int
  PlayerNames : List String
  MyBot : String
  MyId : Int
  EnemyId : Int
  FieldWidth : Int
  FieldHeight : Int
  GameRound : Int
  GameField : GoMap Field
  ThisPieceType : String
  ThisPiecePosition : Position
  NextPieceType : String
  RowPoints : GoMap Int
  Combo : GoMap Int
  Skips : GoMap Int
deriving DecidableEq, Repr

/-- The `GameState` literal with which `runBot` starts: 7 by 6, two empty
player names, every other field at its zero value (nil maps included). -/
def initialState : GameState :=
  { TimeBank := 0, TimePerMove := 0, PlayerNames := ["", ""], MyBot := "",
    MyId := 0, EnemyId := 0, FieldWidth := 7, FieldHeight := 6, GameRound := 0,
    GameField := none, ThisPieceType := "", ThisPiecePosition := ⟨0, 0⟩,
    NextPieceType := "", RowPoints := none, Combo := none, Skips := none }

/-! ## Handlers -/

/-- State effect of `GameState.UpdateSetting(key, value)`.  The error returned
by `Atoi` is discarded and the returned number is stored. -/
def UpdateSetting (f : GameState) (key value : String) : GameState :=
  if key = "timebank" then { f with TimeBank := (Atoi value).1 }
  else if key = "time_per_move" then { f with TimePerMove := (Atoi value).1 }
  else if key = "player_names" then
    { f with PlayerNames := Split value ',', GameField := some [],
             RowPoints := some [], Combo := some [], Skips := some [] }
  else if key = "your_bot" then { f with MyBot := value }
  else if key = "your_botid" then
    { f with MyId := (Atoi value).1, EnemyId := xorInt (Atoi value).1 1 }
  else if key = "field_width" then { f with FieldWidth := (Atoi value).1 }
  else if key = "field_height" then { f with FieldHeight := (Atoi value).1 }
  else f

/-- Lines that `GameState.UpdateSetting(key, value)` writes to the log through
`LogError`: one line for a key of the `default` branch, none otherwise. -/
def UpdateSettingLog (key : String) : List String :=
  if key = "timebank" ∨ key = "time_per_move" ∨ key = "player_names" ∨ key = "your_bot"
      ∨ key = "your_botid" ∨ key = "field_width" ∨ key = "field_height" then []
  else ["ERROR: Invalid key \x27" ++ key ++ "\x27\n"]

/-- Effect of `GameState.UpdateGame(values)`; `none` when the call panics.
The source reads `values[0]` in the test of the `if` and `values[1]` in the
`switch` of either branch, so both are read before any branch is chosen;
`values[2]` is read only inside the cases that use it. -/
def UpdateGame (f : GameState) (values : List String) : Option GameState := do
  let scope ← values[0]?
  let key ← values[1]?
  if scope = "game" then
    if key = "round" then
      let v ← values[2]?
      pure { f with GameRound := (Atoi v).1 }
    else if key = "this_piece_type" then
      let v ← values[2]?
      pure { f with ThisPieceType := v }
    else if key = "next_piece_type" then
      let v ← values[2]?
      pure { f with NextPieceType := v }
    else if key = "this_piece_position" then
      let v ← values[2]?
      let tpp := Split v ','
      let sx ← tpp[0]?
      let sy ← tpp[1]?
      pure { f with ThisPiecePosition := ⟨(Atoi sx).1, (Atoi sy).1⟩ }
    else pure f
  else
    if key = "row_points" then
      let v ← values[2]?
      let m ← mapAssign f.RowPoints scope (Atoi v).1
      pure { f with RowPoints := m }
    else if key = "combo" then
      let v ← values[2]?
      let m ← mapAssign f.Combo scope (Atoi v).1
      pure { f with Combo := m }
    else if key = "skips" then
      let v ← values[2]?
      let m ← mapAssign f.Skips scope (Atoi v).1
      pure { f with Skips := m }
    else if key = "field" then
      let v ← values[2]?
      let m ← mapAssign f.GameField scope (RemoveAll v ',').data
      pure { f with GameField := m }
    else pure f

/-! ## Accessors -/

/-- The method `GameState.EnemyName`: `f.PlayerNames[f.MyId^1]`. -/
def EnemyName (f : GameState) : Option String :=
  sliceIndex f.PlayerNames (xorInt f.MyId 1)

/-- The linear cell offset `(y * f.FieldWidth) + x`, computed on `int`. -/
def fieldIndex (width x y : Int) : Int :=
  wrapInt (wrapInt (y * width) + x)

/-- The method `GameState.MyFieldValue`; `none` when the call panics. -/
def MyFieldValue (f : GameState) (x y : Int) : Option (Char × Bool) :=
  if x < 0 ∨ x ≥ f.FieldWidth then some (zeroRune, false)
  else if y < 0 ∨ y ≥ f.FieldHeight then some (zeroRune, false)
  else
    (sliceIndex (mapIndex [] f.GameField f.MyBot) (fieldIndex f.FieldWidth x y)).map
      (fun c => (c, true))

/-- The method `GameState.EnemyFieldValue`; `none` when the call panics. -/
def EnemyFieldValue (f : GameState) (x y : Int) : Option (Char × Bool) :=
  if x < 0 ∨ x ≥ f.FieldWidth then some (zeroRune, false)
  else if y < 0 ∨ y ≥ f.FieldHeight then some (zeroRune, false)
  else
    match EnemyName f with
    | none => none
    | some name =>
      (sliceIndex (mapIndex [] f.GameField name) (fieldIndex f.FieldWidth x y)).map
        (fun c => (c, true))

/-- States the protocol loop can reach: the initial state, closed under the
two handlers (a panicking `UpdateGame` produces no state). -/
inductive Reachable : GameState → Prop
  | init : Reachable initialState
  | setting (f : GameState) (key value : String) :
      Reachable f → Reachable (UpdateSetting f key value)
  | game (f g : GameState) (values : List String) :
      Reachable f → UpdateGame f values = some g → Reachable g

/-- One call of a handler made by the protocol loop. -/
inductive HandlerCall where
  | setting (key value : String)
  | game (values : List String)
deriving DecidableEq, Repr

/-- The state after the handler calls `calls` made in order from the state `f`;
`none` when one of the `UpdateGame` calls panics. -/
def applyCalls (f : GameState) : List HandlerCall → Option GameState
  | [] => some f
  | HandlerCall.setting key value :: rest => applyCalls (UpdateSetting f key value) rest
  | HandlerCall.game values :: rest =>
    match UpdateGame f values with
    | none => none
    | some g => applyCalls g rest

/-- The number that `Atoi` returns for the value of the last `your_botid`
setting among `calls`; `none` when `calls` contains no such setting. -/
def lastBotId : List HandlerCall → Option Int
  | [] => none
  | HandlerCall.setting key value :: rest =>
    match lastBotId rest with
    | some n => some n
    | none => if key = "your_botid" then some (Atoi value).1 else none
  | HandlerCall.game _ :: rest => lastBotId rest

/-! ## Protocol loop (`runBot`) and the placeholder bot -/

/-- The capability `GetMove(gs, t)` of the interface `BotAi`: the move string
for the current game state and the time allowed in ms. -/
abbrev BotAi := GameState → Int → String

/-- Text that `botIO.WriteLine("%s", s)` writes to the protocol output: the
formatted message followed by a newline. -/
def WriteLine (s : String) : String := s ++ "\n"

/-- What one iteration of the loop of `runBot` leaves behind: the game state,
the texts written to the protocol output and to the log, and the flag
`running`. -/
structure LoopResult where
  state : GameState
  output : List String
  log : List String
  running : Bool
deriving DecidableEq, Repr

/-- One iteration of the loop of `runBot` on the line `text` returned by
`ReadLine`; `none` when the iteration panics.  Indexing `textParts` panics on a
missing token, and `textParts[1:]` is the list without its first token. -/
def loopStep (ai : BotAi) (gs : GameState) (text : String) : Option LoopResult :=
  if text = "" then some ⟨gs, [], [], true⟩
  else do
    let textParts := Split text ' '
    let first ← textParts[0]?
    if first = "action" then
      let second ← textParts[1]?
      if second = "move" then
        let third ← textParts[2]?
        pure ⟨gs, [WriteLine (ai gs (Atoi third).1)], [], true⟩
      else pure ⟨gs, [], [], true⟩
    else if first = "update" then
      let g ← UpdateGame gs (textParts.drop 1)
      pure ⟨g, [], [], true⟩
    else if first = "settings" then
      let key ← textParts[1]?
      let value ← textParts[2]?
      pure ⟨UpdateSetting gs key value, [], UpdateSettingLog key, true⟩
    else if first = "quit" ∨ first = "end" then pure ⟨gs, [], [], false⟩
    else pure ⟨gs, [], [], true⟩

/-- Texts written to the protocol output during one iteration.  The call of
`WriteLine` is the last action of the only branch that writes, so an iteration
that panics has written nothing. -/
def loopOutput (ai : BotAi) (gs : GameState) (text : String) : List String :=
  match loopStep ai gs text with
  | none => []
  | some r => r.output

/-- The vocabulary `moveList` of the random bot. -/
def moveList : List String := ["down", "left", "right", "turnleft", "turnright"]

/-- The value of the call of `rand.Intn(n)` that consumes position `pos` of the
stream `draws` of random numbers: some number below `n`. -/
def Intn (draws : Nat → Nat) (pos n : Nat) : Nat := draws pos % n

/-- The `for` loop of `RandomBot.GetMove` from counter `i` on, with `buffer`
the text written so far and `pos` the number of random draws made so far,
followed by the final write of "drop".  The condition `i < rand.Intn(10)` draws
afresh on every test; the body draws the index into `moveList`. -/
def randomBotLoop (draws : Nat → Nat) (i pos : Nat) (buffer : String) : String :=
  if i < Intn draws pos 10 then
    randomBotLoop draws (i + 1) (pos + 2)
      (buffer ++ (moveList.get ⟨Intn draws (pos + 1) moveList.length,
        Nat.mod_lt _ (by decide)⟩ ++ ","))
  else buffer ++ "drop"
termination_by 10 - i
decreasing_by
  have hlt : Intn draws pos 10 < 10 := Nat.mod_lt _ (by decide)
  omega

/-- The method `RandomBot.GetMove` for the stream `draws` of random numbers;
the game state and the time budget are not consulted. -/
def RandomBotGetMove (draws : Nat → Nat) : BotAi :=
  fun _ _ => randomBotLoop draws 0 0 ""

/-! ## Facts about the runtime model -/

theorem wrapInt_of_inRange (z : Int) (h : InIntRange z) : wrapInt z = z := by
  unfold InIntRange minInt maxInt at h
  unfold wrapInt
  omega

theorem digitChar_isDigit (d : Nat) (h : d < 10) :
    (Nat.digitChar d).isDigit = true ∧ (Nat.digitChar d).toNat - 48 = d
      ∧ Nat.digitChar d ≠ '+' ∧ Nat.digitChar d ≠ '-' := by
  interval_cases d <;> decide

theorem parseUintLoop_toDigitsCore (fuel : Nat) :
    ∀ (n : Nat) (ds : List Char), n < fuel → n ≤ maxUint64 →
      parseUintLoop 0 (Nat.toDigitsCore 10 fuel n ds) = parseUintLoop n ds := by
  induction fuel with
  | zero => intro n ds h; omega
  | succ fuel ih =>
    intro n ds hn hmax
    have hd := digitChar_isDigit (n % 10) (Nat.mod_lt _ (by decide))
    have hstep : ∀ m : Nat, m * 10 + n % 10 = n →
        parseUintLoop m (Nat.digitChar (n % 10) :: ds) = parseUintLoop n ds := by
      intro m hm
      have h1 : ¬ m ≥ uintCutoff := by
        unfold uintCutoff; unfold maxUint64 at hmax ⊢; omega
      have h2 : ¬ m * 10 + n % 10 > maxUint64 := by omega
      have h3 : ¬ n > maxUint64 := by omega
      simp only [parseUintLoop, hd.1, hd.2.1, if_true, h1, h2, h3, if_false, hm]
    unfold Nat.toDigitsCore
    by_cases h0 : n / 10 = 0
    · simp only [h0, if_true]
      exact hstep 0 (by omega)
    · simp only [h0, if_false]
      rw [ih (n / 10) _ (by omega) (by omega)]
      exact hstep (n / 10) (by omega)

theorem toDigitsCore_head (fuel : Nat) :
    ∀ (n : Nat) (ds : List Char), ∃ d rest, d < 10 ∧
      Nat.toDigitsCore 10 (fuel + 1) n ds = Nat.digitChar d :: rest := by
  induction fuel with
  | zero =>
    intro n ds
    refine ⟨n % 10, ds, Nat.mod_lt _ (by decide), ?_⟩
    simp [Nat.toDigitsCore]
  | succ fuel ih =>
    intro n ds
    by_cases h0 : n / 10 = 0
    · refine ⟨n % 10, ds, Nat.mod_lt _ (by decide), ?_⟩
      rw [Nat.toDigitsCore]; simp [h0]
    · obtain ⟨d, rest, hd, hr⟩ := ih (n / 10) (Nat.digitChar (n % 10) :: ds)
      refine ⟨d, rest, hd, ?_⟩
      rw [Nat.toDigitsCore]; simp only [h0, if_false]; exact hr

theorem ParseUint_toDigits (n : Nat) (h : n ≤ maxUint64) :
    ParseUint (Nat.toDigits 10 n) = (n, none) := by
  obtain ⟨d, rest, _, hr⟩ := toDigitsCore_head n n []
  have hne : Nat.toDigits 10 n ≠ [] := by
    unfold Nat.toDigits; rw [hr]; exact List.cons_ne_nil _ _
  unfold ParseUint
  rw [if_neg hne]
  unfold Nat.toDigits
  rw [parseUintLoop_toDigitsCore (n + 1) n [] (Nat.lt_succ_self n) h]
  rfl

/-- On the decimal text of an `int`, `Atoi` returns that `int` and no error. -/
theorem Atoi_toString (n : Int) (h : InIntRange n) : Atoi (toString n) = (n, none) := by
  unfold InIntRange minInt maxInt at h
  cases n with
  | ofNat m =>
    simp only [Int.ofNat_eq_coe] at h
    have h63 : m < 9223372036854775808 := by omega
    have hm : m ≤ maxUint64 := by unfold maxUint64; omega
    obtain ⟨d, rest, hd, hr⟩ := toDigitsCore_head m m []
    have hc := digitChar_isDigit d hd
    have hdata : (toString (Int.ofNat m)).data = Nat.toDigits 10 m := rfl
    have hp := ParseUint_toDigits m hm
    unfold Atoi
    rw [hdata]
    unfold Nat.toDigits at hp ⊢
    rw [hr] at hp ⊢
    simp [ParseInt, hc.2.2.1, hc.2.2.2, hp, h63]
  | negSucc m =>
    simp only [Int.negSucc_eq] at h
    have h63 : m ≤ 9223372036854775807 := by omega
    have hm : m + 1 ≤ maxUint64 := by unfold maxUint64; omega
    have hdata : (toString (Int.negSucc m)).data = '-' :: Nat.toDigits 10 (m + 1) := rfl
    have hp := ParseUint_toDigits (m + 1) hm
    unfold Atoi
    rw [hdata]
    simp [ParseInt, hp, h63, Int.negSucc_eq]

theorem sliceIndex_isSome {α : Type} (s : List α) (i : Int) :
    (sliceIndex s i).isSome ↔ 0 ≤ i ∧ i < (s.length : Int) := by
  unfold sliceIndex
  by_cases h : 0 ≤ i
  · simp only [h, if_true, true_and]
    rw [← Option.ne_none_iff_isSome, ne_eq, List.getElem?_eq_none_iff]
    omega
  · simp [h]

theorem fieldIndex_of_inRange (width height x y : Int) (hfit : width * height ≤ maxInt)
    (hx : 0 ≤ x ∧ x < width) (hy : 0 ≤ y ∧ y < height) :
    fieldIndex width x y = y * width + x ∧ 0 ≤ y * width + x
      ∧ y * width + x < width * height := by
  have hw : 0 < width := by omega
  have h1 : 0 ≤ y * width := Int.mul_nonneg hy.1 (by omega)
  have h2 : (y + 1) * width ≤ height * width :=
    Int.mul_le_mul_of_nonneg_right (by omega) (by omega)
  have h3 : (y + 1) * width = y * width + width := by ring
  have h4 : height * width = width * height := by ring
  have h5 : y * width + x < width * height := by omega
  unfold maxInt at hfit
  refine ⟨?_, by omega, h5⟩
  unfold fieldIndex
  rw [wrapInt_of_inRange (y * width) (by unfold InIntRange minInt maxInt; omega)]
  exact wrapInt_of_inRange _ (by unfold InIntRange minInt maxInt; omega)

/-! ## Field accessors -/

/-- C1: for every GameState and all ints x, y with x < 0 or x >= FieldWidth or
y < 0 or y >= FieldHeight, MyFieldValue(x, y) and EnemyFieldValue(x, y) both
return the zero cell with found = false, and neither faults. -/
theorem out_of_range_lookup_not_found (f : GameState) (x y : Int)
    (h : x < 0 ∨ x ≥ f.FieldWidth ∨ y < 0 ∨ y ≥ f.FieldHeight) :
    MyFieldValue f x y = some (zeroRune, false)
      ∧ EnemyFieldValue f x y = some (zeroRune, false) := by
  unfold MyFieldValue EnemyFieldValue
  by_cases hx : x < 0 ∨ x ≥ f.FieldWidth
  · simp [hx]
  · have hy : y < 0 ∨ y ≥ f.FieldHeight := by omega
    simp [hx, hy]

/-- C1 at the default 7 by 6 dimensions of the loop: column 7 is not found. -/
theorem out_of_range_lookup_not_found_witness :
    ((7 : Int) < 0 ∨ (7 : Int) ≥ initialState.FieldWidth ∨ (0 : Int) < 0
        ∨ (0 : Int) ≥ initialState.FieldHeight)
      ∧ MyFieldValue initialState 7 0 = some (zeroRune, false)
      ∧ EnemyFieldValue initialState 7 0 = some (zeroRune, false) :=
  ⟨by decide, out_of_range_lookup_not_found initialState 7 0 (by decide)⟩

/-- C2: when GameField[MyBot] holds exactly FieldWidth*FieldHeight cells (a
slice, so at most maxInt of them) and 0 <= x < FieldWidth, 0 <= y < FieldHeight,
MyFieldValue(x, y) returns found = true and the cell stored at linear offset
y*FieldWidth + x of GameField[MyBot]. -/
theorem my_field_value_in_range (f : GameState) (x y : Int)
    (hlen : ((mapIndex [] f.GameField f.MyBot).length : Int) = f.FieldWidth * f.FieldHeight)
    (hfit : (mapIndex [] f.GameField f.MyBot).length ≤ maxInt)
    (hx : 0 ≤ x ∧ x < f.FieldWidth) (hy : 0 ≤ y ∧ y < f.FieldHeight) :
    ∃ cell, (mapIndex [] f.GameField f.MyBot)[(y * f.FieldWidth + x).toNat]? = some cell
      ∧ MyFieldValue f x y = some (cell, true) := by
  obtain ⟨hi, h0, hlt⟩ :=
    fieldIndex_of_inRange f.FieldWidth f.FieldHeight x y (by omega) hx hy
  have hsome : (sliceIndex (mapIndex [] f.GameField f.MyBot) (y * f.FieldWidth + x)).isSome :=
    (sliceIndex_isSome _ _).2 ⟨h0, by omega⟩
  obtain ⟨cell, hcell⟩ := Option.isSome_iff_exists.1 hsome
  refine ⟨cell, ?_, ?_⟩
  · simpa [sliceIndex, h0] using hcell
  · have hnx : ¬ (x < 0 ∨ x ≥ f.FieldWidth) := by omega
    have hny : ¬ (y < 0 ∨ y ≥ f.FieldHeight) := by omega
    simp [MyFieldValue, hnx, hny, hi, hcell]

/-- C2 on a 2 by 2 field "abcd" of player "me": the cell at (1, 1) is the one
at offset 3. -/
theorem my_field_value_in_range_witness :
    MyFieldValue
      { initialState with MyBot := "me", FieldWidth := 2, FieldHeight := 2,
                          GameField := some [("me", ['a', 'b', 'c', 'd'])] } 1 1
      = some ('d', true) := by
  obtain ⟨cell, h1, h2⟩ := my_field_value_in_range
    { initialState with MyBot := "me", FieldWidth := 2, FieldHeight := 2,
                        GameField := some [("me", ['a', 'b', 'c', 'd'])] } 1 1
    (by decide) (by decide) (by decide) (by decide)
  have h3 : cell = 'd' := by
    have h4 : (['a', 'b', 'c', 'd'] : List Char)[(3 : Nat)]? = some cell := h1
    simpa using h4.symm
  rw [h2, h3]

/-- C3 fails: in the initial state of the loop, which is 7 by 6 with no field
stored, MyFieldValue(0, 0) and EnemyFieldValue(0, 0) both fault. -/
theorem lookup_faults_in_initial_state :
    Reachable initialState ∧ MyFieldValue initialState 0 0 = none
      ∧ EnemyFieldValue initialState 0 0 = none :=
  ⟨Reachable.init, by decide, by decide⟩

/-- C3 (amended): in every GameState, MyFieldValue(x, y) returns a pair exactly
when (x, y) lies outside the declared dimensions or the computed offset lies
inside the stored field of MyBot; EnemyFieldValue(x, y) returns a pair exactly
when (x, y) lies outside the declared dimensions or PlayerNames[MyId^1] exists
and the computed offset lies inside that player's stored field. -/
theorem lookup_returns_iff (f : GameState) (x y : Int) :
    ((MyFieldValue f x y).isSome ↔
        (x < 0 ∨ x ≥ f.FieldWidth ∨ y < 0 ∨ y ≥ f.FieldHeight)
          ∨ (0 ≤ fieldIndex f.FieldWidth x y
              ∧ fieldIndex f.FieldWidth x y < ((mapIndex [] f.GameField f.MyBot).length : Int)))
      ∧ ((EnemyFieldValue f x y).isSome ↔
        (x < 0 ∨ x ≥ f.FieldWidth ∨ y < 0 ∨ y ≥ f.FieldHeight)
          ∨ ∃ name, EnemyName f = some name ∧ 0 ≤ fieldIndex f.FieldWidth x y
              ∧ fieldIndex f.FieldWidth x y < ((mapIndex [] f.GameField name).length : Int)) := by
  by_cases hout : x < 0 ∨ x ≥ f.FieldWidth ∨ y < 0 ∨ y ≥ f.FieldHeight
  · have hsplit : (x < 0 ∨ x ≥ f.FieldWidth)
        ∨ (¬ (x < 0 ∨ x ≥ f.FieldWidth) ∧ (y < 0 ∨ y ≥ f.FieldHeight)) := by omega
    rw [or_iff_left_of_imp (fun _ => hout), or_iff_left_of_imp (fun _ => hout)]
    unfold MyFieldValue EnemyFieldValue
    rcases hsplit with hx | ⟨hx, hy⟩
    · rw [if_pos hx, if_pos hx]
      exact ⟨⟨fun _ => hout, fun _ => rfl⟩, ⟨fun _ => hout, fun _ => rfl⟩⟩
    · rw [if_neg hx, if_pos hy, if_neg hx, if_pos hy]
      exact ⟨⟨fun _ => hout, fun _ => rfl⟩, ⟨fun _ => hout, fun _ => rfl⟩⟩
  · have hnx : ¬ (x < 0 ∨ x ≥ f.FieldWidth) := by omega
    have hny : ¬ (y < 0 ∨ y ≥ f.FieldHeight) := by omega
    have hmap : ∀ o : Option Char, (o.map (fun c => (c, true))).isSome = o.isSome := by
      intro o; cases o <;> rfl
    rw [or_iff_right hout, or_iff_right hout]
    unfold MyFieldValue EnemyFieldValue
    rw [if_neg hnx, if_neg hny, if_neg hnx, if_neg hny, hmap]
    refine ⟨sliceIndex_isSome _ _, ?_⟩
    cases hn : EnemyName f with
    | none => simp
    | some name =>
      simp only [hmap, Option.some.injEq, exists_eq_left']
      exact sliceIndex_isSome _ _

/-! ## Settings handler -/

theorem splitChars_of_not_mem (sep : Char) (cs : List Char) (h : sep ∉ cs) :
    splitChars sep cs = [cs] := by
  induction cs with
  | nil => rfl
  | cons c cs ih =>
    have hc : c ≠ sep := fun e => h (by simp [e])
    have hcs : sep ∉ cs := fun e => h (List.mem_cons_of_mem _ e)
    simp [splitChars, hc, ih hcs]

theorem splitChars_append_sep (sep : Char) (as bs : List Char) (h : sep ∉ as) :
    splitChars sep (as ++ sep :: bs) = as :: splitChars sep bs := by
  induction as with
  | nil => simp [splitChars]
  | cons c cs ih =>
    have hc : c ≠ sep := fun e => h (by simp [e])
    have hcs : sep ∉ cs := fun e => h (List.mem_cons_of_mem _ e)
    simp [splitChars, hc, ih hcs]

theorem Split_pair (a b : String) (ha : ',' ∉ a.data) (hb : ',' ∉ b.data) :
    Split (a ++ "," ++ b) ',' = [a, b] := by
  have hdata : (a ++ "," ++ b).data = a.data ++ ',' :: b.data := by
    simp [String.data_append]
  unfold Split
  rw [hdata, splitChars_append_sep _ _ _ ha, splitChars_of_not_mem _ _ hb]
  rfl

/-- C4: for every GameState and every int n, UpdateSetting("your_botid", value)
with value the decimal text of n leaves MyId = n and EnemyId = n XOR 1; after
value "1" EnemyId is 0 and after value "0" EnemyId is 1. -/
theorem your_botid_sets_ids (f : GameState) (n : Int) (hn : InIntRange n) :
    (UpdateSetting f "your_botid" (toString n)).MyId = n
      ∧ (UpdateSetting f "your_botid" (toString n)).EnemyId = xorInt n 1
      ∧ (UpdateSetting f "your_botid" "1").EnemyId = 0
      ∧ (UpdateSetting f "your_botid" "0").EnemyId = 1 := by
  have h1 : Atoi "1" = (1, none) := by decide
  have h0 : Atoi "0" = (0, none) := by decide
  have hx1 : xorInt 1 1 = 0 := by decide
  have hx0 : xorInt 0 1 = 1 := by decide
  simp [UpdateSetting, Atoi_toString n hn, h1, h0, hx1, hx0]

/-- C4 for bot id 1 in the initial state: MyId becomes 1 and EnemyId 0. -/
theorem your_botid_sets_ids_witness :
    InIntRange 1
      ∧ (UpdateSetting initialState "your_botid" (toString (1 : Int))).MyId = 1
      ∧ (UpdateSetting initialState "your_botid" (toString (1 : Int))).EnemyId = 0 :=
  ⟨by decide, (your_botid_sets_ids initialState 1 (by decide)).1,
    (your_botid_sets_ids initialState 1 (by decide)).2.2.1⟩

/-- C5 fails: after UpdateSetting("player_names", "alice,bob") the four maps
hold no key at all, so neither "alice" nor "bob" is a key of any of them. -/
theorem player_names_leaves_maps_empty :
    mapKeys (UpdateSetting initialState "player_names" "alice,bob").GameField = []
      ∧ mapKeys (UpdateSetting initialState "player_names" "alice,bob").RowPoints = []
      ∧ mapKeys (UpdateSetting initialState "player_names" "alice,bob").Combo = []
      ∧ mapKeys (UpdateSetting initialState "player_names" "alice,bob").Skips = []
      ∧ mapGet (UpdateSetting initialState "player_names" "alice,bob").GameField "alice" = none
      ∧ mapGet (UpdateSetting initialState "player_names" "alice,bob").RowPoints "bob" = none := by
  decide

/-- C5 (amended): after UpdateSetting("player_names", "a,b") with comma-free
names a and b, PlayerNames is [a, b] and each of GameField, RowPoints, Combo and
Skips is an initialised map without any key; reading any key from them gives
the zero value (the empty field, the counter 0). -/
theorem player_names_resets_maps (f : GameState) (a b : String)
    (ha : ',' ∉ a.data) (hb : ',' ∉ b.data) :
    (UpdateSetting f "player_names" (a ++ "," ++ b)).PlayerNames = [a, b]
      ∧ (UpdateSetting f "player_names" (a ++ "," ++ b)).GameField = some []
      ∧ (UpdateSetting f "player_names" (a ++ "," ++ b)).RowPoints = some []
      ∧ (UpdateSetting f "player_names" (a ++ "," ++ b)).Combo = some []
      ∧ (UpdateSetting f "player_names" (a ++ "," ++ b)).Skips = some []
      ∧ ∀ k : String,
          mapIndex [] (UpdateSetting f "player_names" (a ++ "," ++ b)).GameField k = []
            ∧ mapIndex 0 (UpdateSetting f "player_names" (a ++ "," ++ b)).RowPoints k = 0
            ∧ mapIndex 0 (UpdateSetting f "player_names" (a ++ "," ++ b)).Combo k = 0
            ∧ mapIndex 0 (UpdateSetting f "player_names" (a ++ "," ++ b)).Skips k = 0 := by
  simp [UpdateSetting, Split_pair a b ha hb, mapIndex, mapGet]

/-- C5 (amended) for the names alice and bob. -/
theorem player_names_resets_maps_witness :
    (UpdateSetting initialState "player_names" "alice,bob").PlayerNames = ["alice", "bob"]
      ∧ (UpdateSetting initialState "player_names" "alice,bob").GameField = some [] :=
  ⟨(player_names_resets_maps initialState "alice" "bob" (by decide) (by decide)).1,
    (player_names_resets_maps initialState "alice" "bob" (by decide) (by decide)).2.1⟩

/-! ## Update handler -/

/-- C6: for every GameState and every int n, UpdateGame(["game", "round", value])
with value the decimal text of n completes and yields the state that has
GameRound = n and every other field as before the call. -/
theorem update_round_frame (f : GameState) (n : Int) (hn : InIntRange n) :
    UpdateGame f ["game", "round", toString n] = some { f with GameRound := n } := by
  simp [UpdateGame, Atoi_toString n hn]

/-- C6 for the value "5" in the initial state. -/
theorem update_round_frame_witness :
    InIntRange 5
      ∧ UpdateGame initialState ["game", "round", "5"]
          = some { initialState with GameRound := 5 } :=
  ⟨by decide, update_round_frame initialState 5 (by decide)⟩

theorem lookup_filter_ne {V : Type} (p q : String) (hq : q ≠ p) (kvs : List (String × V)) :
    (kvs.filter (fun e => e.1 ≠ p)).lookup q = kvs.lookup q := by
  induction kvs with
  | nil => rfl
  | cons e kvs ih =>
    obtain ⟨k, v⟩ := e
    by_cases hk : k = p
    · subst hk
      have hqk : (q == k) = false := by simp [hq]
      rw [List.lookup_cons, hqk, List.filter_cons]
      simpa using ih
    · rw [List.filter_cons]
      have hd : decide ((k, v).1 ≠ p) = true := by simp [hk]
      rw [if_pos hd, List.lookup_cons, List.lookup_cons, ih]

theorem mapGet_mapAssign {V : Type} (m m2 : GoMap V) (p : String) (v : V)
    (h : mapAssign m p v = some m2) :
    mapGet m2 p = some v ∧ ∀ q, q ≠ p → mapGet m2 q = mapGet m q := by
  cases m with
  | none => simp [mapAssign] at h
  | some kvs =>
    simp only [mapAssign, Option.some.injEq] at h
    subst h
    refine ⟨by simp [mapGet, List.lookup_cons], ?_⟩
    intro q hq
    have hqp : (q == p) = false := by simp [hq]
    show List.lookup q ((p, v) :: kvs.filter (fun e => e.1 ≠ p)) = List.lookup q kvs
    rw [List.lookup_cons, hqp]
    exact lookup_filter_ne p q hq kvs

theorem mapAssign_idem {V : Type} (m m2 : GoMap V) (p : String) (v : V)
    (h : mapAssign m p v = some m2) : mapAssign m2 p v = some m2 := by
  cases m with
  | none => simp [mapAssign] at h
  | some kvs =>
    simp only [mapAssign, Option.some.injEq] at h
    subst h
    simp [mapAssign, List.filter_cons, List.filter_filter]

theorem length_filter_ne_add_count (c : Char) (cs : List Char) :
    (cs.filter (fun d => d ≠ c)).length + cs.count c = cs.length := by
  induction cs with
  | nil => rfl
  | cons d cs ih =>
    by_cases hd : d = c
    · subst hd
      have h1 : decide (d ≠ d) = false := by simp
      rw [List.filter_cons, h1, List.count_cons_self, List.length_cons]
      simp only [Bool.false_eq_true, if_false]
      omega
    · have h1 : decide (d ≠ c) = true := by simp [hd]
      have h2 : (d == c) = false := by simp [hd]
      rw [List.filter_cons, h1, List.count_cons, h2]
      simp only [if_true, List.length_cons, Bool.false_eq_true, if_false]
      omega

/-- C7: for every GameState whose GameField map is initialised, every player
name p other than "game" and every string v, UpdateGame([p, "field", v])
completes and afterwards GameField[p] is exactly the sequence of the characters
of v other than the comma, in their original order: it contains no comma and
its length is the length of v minus the number of commas in v, whatever was
stored before; the entries of all other players are unchanged. -/
theorem update_field_strips_commas (f : GameState) (kvs : List (String × Field))
    (p v : String) (hmap : f.GameField = some kvs) (hp : p ≠ "game") :
    ∃ g, UpdateGame f [p, "field", v] = some g
      ∧ mapGet g.GameField p = some (v.data.filter (fun c => c ≠ ','))
      ∧ ',' ∉ mapIndex [] g.GameField p
      ∧ (mapIndex [] g.GameField p).length = v.length - v.data.count ','
      ∧ ∀ q, q ≠ p → mapGet g.GameField q = mapGet f.GameField q := by
  have hassign : mapAssign f.GameField p (RemoveAll v ',').data
      = some (some ((p, (RemoveAll v ',').data) :: kvs.filter (fun e => e.1 ≠ p))) := by
    rw [hmap]; rfl
  obtain ⟨hget, hothers⟩ := mapGet_mapAssign _ _ _ _ hassign
  have hdata : (RemoveAll v ',').data = v.data.filter (fun c => c ≠ ',') := rfl
  refine ⟨{ f with GameField := some ((p, (RemoveAll v ',').data)
      :: kvs.filter (fun e => e.1 ≠ p)) }, ?_, hget, ?_, ?_, hothers⟩
  · simp [UpdateGame, hp, hassign]
  · show ',' ∉ (mapGet _ p).getD []
    rw [hget, hdata]
    simp
  · show ((mapGet _ p).getD []).length = v.length - v.data.count ','
    rw [hget]
    have hlen := length_filter_ne_add_count ',' v.data
    have hvl : v.length = v.data.length := rfl
    rw [Option.getD_some, hvl, hdata]
    omega

/-- C7 on the input "1,0,1,,0" for player alice: the stored field is 1010. -/
theorem update_field_strips_commas_witness :
    ∃ g, UpdateGame (UpdateSetting initialState "player_names" "alice,bob")
          ["alice", "field", "1,0,1,,0"] = some g
      ∧ mapGet g.GameField "alice" = some ['1', '0', '1', '0'] := by
  obtain ⟨g, h1, h2, _⟩ := update_field_strips_commas
    (UpdateSetting initialState "player_names" "alice,bob") [] "alice" "1,0,1,,0"
    (by decide) (by decide)
  exact ⟨g, h1, by rw [h2]; decide⟩

theorem ParseInt_error (s : List Char) (e : NumError) (h : (ParseInt s).2 = some e) :
    (e = NumError.ErrSyntax ∧ (ParseInt s).1 = 0)
      ∨ (e = NumError.ErrRange ∧ ((ParseInt s).1 = maxInt ∨ (ParseInt s).1 = minInt)) := by
  unfold ParseInt at h ⊢
  split at h
  · left; simpa using h.symm
  · rename_i c rest
    simp only at h ⊢
    split at h
    · left; simpa using h.symm
    · split_ifs at h ⊢ with h1 h2
      · right; simpa using h.symm
      · right; simpa using h.symm

theorem UpdateGame_twice_cons (f g : GameState) (scope key : String) (rest : List String)
    (h : UpdateGame f (scope :: key :: rest) = some g) :
    UpdateGame g (scope :: key :: rest) = some g := by
  cases rest with
  | nil =>
    simp only [UpdateGame, List.getElem?_cons_zero, List.getElem?_cons_succ,
      List.getElem?_nil, Option.bind_eq_bind, Option.some_bind, Option.none_bind,
      Option.pure_def] at h ⊢
    split_ifs at h ⊢ <;> simp_all
  | cons v more =>
    simp only [UpdateGame, List.getElem?_cons_zero, List.getElem?_cons_succ,
      Option.bind_eq_bind, Option.some_bind, Option.pure_def] at h ⊢
    split_ifs at h ⊢
    all_goals first
      | (simp only [Option.some.injEq] at h; subst h; rfl)
      | (cases hm : mapAssign f.RowPoints scope (Atoi v).1 with
         | none => simp [hm] at h
         | some m =>
           simp only [hm, Option.some_bind, Option.some.injEq] at h
           subst h
           simp [mapAssign_idem _ _ _ _ hm])
      | (cases hm : mapAssign f.Combo scope (Atoi v).1 with
         | none => simp [hm] at h
         | some m =>
           simp only [hm, Option.some_bind, Option.some.injEq] at h
           subst h
           simp [mapAssign_idem _ _ _ _ hm])
      | (cases hm : mapAssign f.Skips scope (Atoi v).1 with
         | none => simp [hm] at h
         | some m =>
           simp only [hm, Option.some_bind, Option.some.injEq] at h
           subst h
           simp [mapAssign_idem _ _ _ _ hm])
      | (cases hm : mapAssign f.GameField scope (RemoveAll v ',').data with
         | none => simp [hm] at h
         | some m =>
           simp only [hm, Option.some_bind, Option.some.injEq] at h
           subst h
           simp [mapAssign_idem _ _ _ _ hm])
      | (cases h0 : (Split v ',')[0]? with
         | none => simp [h0] at h
         | some sx =>
           cases h1 : (Split v ',')[1]? with
           | none => simp [h0, h1] at h
           | some sy =>
             simp only [h0, h1, Option.some_bind, Option.some.injEq] at h
             subst h
             rfl)

/-- C8 fails: with TimeBank set to 1000, the setting timebank with the malformed
value "abc" stores 0 instead of keeping 1000. -/
theorem malformed_timebank_resets_to_zero :
    (Atoi "abc").2 = some NumError.ErrSyntax
      ∧ (UpdateSetting initialState "timebank" "1000").TimeBank = 1000
      ∧ (UpdateSetting (UpdateSetting initialState "timebank" "1000") "timebank" "abc").TimeBank
          = 0 := by
  decide

/-- C8 (amended): for every GameState and every value that Atoi rejects, each
numeric setting and the round update overwrite their target field with the
number Atoi returns next to the error, whatever the field held before: 0 for a
syntax error, and the largest or the smallest int for a range error. -/
theorem malformed_number_overwrites (f : GameState) (value : String) (e : NumError)
    (herr : (Atoi value).2 = some e) :
    ((e = NumError.ErrSyntax ∧ (Atoi value).1 = 0)
        ∨ (e = NumError.ErrRange ∧ ((Atoi value).1 = maxInt ∨ (Atoi value).1 = minInt)))
      ∧ (UpdateSetting f "timebank" value).TimeBank = (Atoi value).1
      ∧ (UpdateSetting f "time_per_move" value).TimePerMove = (Atoi value).1
      ∧ (UpdateSetting f "your_botid" value).MyId = (Atoi value).1
      ∧ (UpdateSetting f "field_width" value).FieldWidth = (Atoi value).1
      ∧ (UpdateSetting f "field_height" value).FieldHeight = (Atoi value).1
      ∧ UpdateGame f ["game", "round", value] = some { f with GameRound := (Atoi value).1 } := by
  refine ⟨ParseInt_error value.data e herr, ?_⟩
  simp [UpdateSetting, UpdateGame]

/-- C8 (amended) for the value "abc": every numeric target becomes 0. -/
theorem malformed_number_overwrites_witness :
    (Atoi "abc").2 = some NumError.ErrSyntax
      ∧ (Atoi "abc").1 = 0
      ∧ (UpdateSetting (UpdateSetting initialState "field_width" "10") "field_width"
          "abc").FieldWidth = (Atoi "abc").1 :=
  ⟨by decide, by decide,
    (malformed_number_overwrites (UpdateSetting initialState "field_width" "10") "abc"
      NumError.ErrSyntax (by decide)).2.2.2.2.1⟩

/-- C9: UpdateGame is idempotent: whenever UpdateGame(t) completes on a state,
applying UpdateGame(t) again to the resulting state completes and returns that
same state. -/
theorem update_game_idempotent (f g : GameState) (values : List String)
    (h : UpdateGame f values = some g) : UpdateGame g values = some g := by
  rcases values with _ | ⟨scope, _ | ⟨key, rest⟩⟩
  · simp [UpdateGame] at h
  · simp [UpdateGame] at h
  · exact UpdateGame_twice_cons f g scope key rest h

/-- C9 for the line "update game round 5": the second replay returns the state
of the first, so GameRound is 5 after either. -/
theorem update_game_idempotent_witness :
    UpdateGame initialState ["game", "round", "5"] = some { initialState with GameRound := 5 }
      ∧ UpdateGame { initialState with GameRound := 5 } ["game", "round", "5"]
          = some { initialState with GameRound := 5 } :=
  ⟨by decide, update_game_idempotent initialState { initialState with GameRound := 5 }
    ["game", "round", "5"] (by decide)⟩

/-! ## Linear index -/

/-- C10 fails: after the settings field_width 4611686018427387904 (2^62) and
field_height 4 the coordinate (0, 2) is valid but its index overflows to -2^63;
for height 8 the valid coordinates (0, 0) and (0, 4) share the index 0. -/
theorem field_index_overflows :
    (UpdateSetting (UpdateSetting initialState "field_width" "4611686018427387904")
        "field_height" "4").FieldWidth = 2 ^ 62
      ∧ (UpdateSetting (UpdateSetting initialState "field_width" "4611686018427387904")
        "field_height" "4").FieldHeight = 4
      ∧ ((0 : Int) < 2 ^ 62 ∧ (0 : Int) < 4 ∧ (0 : Int) ≤ 0 ∧ (0 : Int) < 2 ^ 62
        ∧ (0 : Int) ≤ 2 ∧ (2 : Int) < 4)
      ∧ fieldIndex (2 ^ 62) 0 2 = -(2 ^ 63)
      ∧ ¬ (0 ≤ fieldIndex (2 ^ 62) 0 2)
      ∧ ((4 : Int) < 8 ∧ fieldIndex (2 ^ 62) 0 0 = fieldIndex (2 ^ 62) 0 4) := by
  decide

/-- C10 (amended): for every width > 0 and height > 0 whose product fits in an
int, and all (x, y) with 0 <= x < width and 0 <= y < height, the index computed
by the accessors equals y*width + x and lies in [0, width*height); two such
coordinate pairs with the same index are equal; and every offset of
[0, width*height) is the index of such a pair. -/
theorem field_index_bijective (width height : Int) (hw : 0 < width) (_hh : 0 < height)
    (hfit : width * height ≤ maxInt) :
    (∀ x y, 0 ≤ x ∧ x < width → 0 ≤ y ∧ y < height →
        fieldIndex width x y = y * width + x
          ∧ 0 ≤ fieldIndex width x y ∧ fieldIndex width x y < width * height)
      ∧ (∀ x1 y1 x2 y2, 0 ≤ x1 ∧ x1 < width → 0 ≤ y1 ∧ y1 < height →
          0 ≤ x2 ∧ x2 < width → 0 ≤ y2 ∧ y2 < height →
          fieldIndex width x1 y1 = fieldIndex width x2 y2 → x1 = x2 ∧ y1 = y2)
      ∧ (∀ i, 0 ≤ i ∧ i < width * height →
          ∃ x y, (0 ≤ x ∧ x < width) ∧ (0 ≤ y ∧ y < height) ∧ fieldIndex width x y = i) := by
  refine ⟨?_, ?_, ?_⟩
  · intro x y hx hy
    obtain ⟨h1, h2, h3⟩ := fieldIndex_of_inRange width height x y hfit hx hy
    rw [h1]
    exact ⟨rfl, h2, h3⟩
  · intro x1 y1 x2 y2 hx1 hy1 hx2 hy2 heq
    rw [(fieldIndex_of_inRange width height x1 y1 hfit hx1 hy1).1,
      (fieldIndex_of_inRange width height x2 y2 hfit hx2 hy2).1] at heq
    have hy : y1 = y2 := by
      rcases lt_trichotomy y1 y2 with hlt | heq2 | hgt
      · have h := Int.mul_le_mul_of_nonneg_right (show y1 + 1 ≤ y2 by omega) (le_of_lt hw)
        have h2 : (y1 + 1) * width = y1 * width + width := by ring
        omega
      · exact heq2
      · have h := Int.mul_le_mul_of_nonneg_right (show y2 + 1 ≤ y1 by omega) (le_of_lt hw)
        have h2 : (y2 + 1) * width = y2 * width + width := by ring
        omega
    subst hy
    exact ⟨by omega, rfl⟩
  · intro i hi
    have hxr : 0 ≤ i % width ∧ i % width < width :=
      ⟨Int.emod_nonneg i (by omega), Int.emod_lt_of_pos i hw⟩
    have hyr : 0 ≤ i / width ∧ i / width < height :=
      ⟨Int.ediv_nonneg hi.1 (le_of_lt hw),
        Int.ediv_lt_of_lt_mul hw (by rw [Int.mul_comm]; exact hi.2)⟩
    refine ⟨i % width, i / width, hxr, hyr, ?_⟩
    rw [(fieldIndex_of_inRange width height _ _ hfit hxr hyr).1]
    have := Int.emod_add_ediv i width
    have h2 : i / width * width = width * (i / width) := by ring
    omega

/-- C10 (amended) at the default 7 by 6 dimensions: the last cell (6, 5) has
index 41. -/
theorem field_index_bijective_witness :
    fieldIndex 7 6 5 = 5 * 7 + 6 ∧ 0 ≤ fieldIndex 7 6 5 ∧ fieldIndex 7 6 5 < 7 * 6 :=
  (field_index_bijective 7 6 (by decide) (by decide) (by decide)).1 6 5
    (by decide) (by decide)

/-! ## Protocol loop -/

theorem splitChars_ne_nil (sep : Char) (cs : List Char) : splitChars sep cs ≠ [] := by
  cases cs with
  | nil => simp [splitChars]
  | cons c cs =>
    unfold splitChars
    by_cases h : c = sep
    · simp [h]
    · simp only [h, if_false]
      split <;> simp

theorem Split_cons (s : String) (sep : Char) : ∃ first rest, Split s sep = first :: rest := by
  unfold Split
  cases h : splitChars sep s.data with
  | nil => exact absurd h (splitChars_ne_nil sep s.data)
  | cons piece more => exact ⟨String.mk piece, more.map String.mk, rfl⟩

/-- C14: for every GameState and every non-empty line, an iteration that
completes stops the loop if and only if the first space-separated token of the
line is "quit" or "end"; and on a line whose first token is none of action,
update, settings, quit, end the iteration completes, leaves the GameState
unchanged and the loop running. -/
theorem loop_stops_iff_quit_or_end (ai : BotAi) (gs : GameState) (text : String)
    (hne : text ≠ "") :
    ∃ first rest, Split text ' ' = first :: rest
      ∧ (∀ r, loopStep ai gs text = some r →
          (r.running = false ↔ first = "quit" ∨ first = "end"))
      ∧ (first ≠ "action" → first ≠ "update" → first ≠ "settings" → first ≠ "quit"
          → first ≠ "end" → loopStep ai gs text = some ⟨gs, [], [], true⟩) := by
  obtain ⟨first, rest, hs⟩ := Split_cons text ' '
  refine ⟨first, rest, hs, ?_, ?_⟩
  · intro r hr
    simp only [loopStep, hne, if_false, hs, List.getElem?_cons_zero, List.getElem?_cons_succ,
      Option.bind_eq_bind, Option.some_bind, Option.pure_def, List.drop_succ_cons,
      List.drop_zero] at hr
    split_ifs at hr with h1 h2 h3 h4
    · cases hsec : rest[0]? with
      | none => simp [hsec] at hr
      | some second =>
        simp only [hsec, Option.some_bind] at hr
        split_ifs at hr with h6
        · cases hth : rest[1]? with
          | none => simp [hth] at hr
          | some third =>
            simp only [hth, Option.some_bind, Option.some.injEq] at hr
            subst hr; subst h1; simp
        · simp only [Option.some.injEq] at hr
          subst hr; subst h1; simp
    · cases hg : UpdateGame gs rest with
      | none => simp [hg] at hr
      | some g =>
        simp only [hg, Option.some_bind, Option.some.injEq] at hr
        subst hr; subst h2; simp
    · cases hk : rest[0]? with
      | none => simp [hk] at hr
      | some key =>
        cases hv : rest[1]? with
        | none => simp [hk, hv] at hr
        | some value =>
          simp only [hk, hv, Option.some_bind, Option.some.injEq] at hr
          subst hr; subst h3; simp
    · simp only [Option.some.injEq] at hr
      subst hr; simpa using h4
    · simp only [Option.some.injEq] at hr
      subst hr; simpa using h4
  · intro h1 h2 h3 h4 h5
    simp [loopStep, hne, hs, h1, h2, h3, h4, h5]

/-- C14 on the lines "quit" and "hello": the first stops the loop, the second
changes nothing. -/
theorem loop_stops_iff_quit_or_end_witness :
    (loopStep (fun _ _ => "drop") initialState "quit").map (fun r => r.running) = some false
      ∧ ∃ first rest, Split "hello" ' ' = first :: rest
        ∧ (∀ r, loopStep (fun _ _ => "drop") initialState "hello" = some r →
            (r.running = false ↔ first = "quit" ∨ first = "end"))
        ∧ (first ≠ "action" → first ≠ "update" → first ≠ "settings" → first ≠ "quit"
            → first ≠ "end"
            → loopStep (fun _ _ => "drop") initialState "hello"
                = some ⟨initialState, [], [], true⟩) :=
  ⟨by decide,
    loop_stops_iff_quit_or_end (fun _ _ => "drop") initialState "hello" (by decide)⟩

/-- C15: for every GameState, every key outside timebank, time_per_move,
player_names, your_bot, your_botid, field_width, field_height and every value,
UpdateSetting(key, value) leaves every field of the GameState unchanged and
writes the single line "ERROR: Invalid key (key)" to the log; processed as the
line "settings key value" by the loop, nothing goes to the protocol output. -/
theorem unknown_setting_key_ignored (f : GameState) (key value : String)
    (h1 : key ≠ "timebank") (h2 : key ≠ "time_per_move") (h3 : key ≠ "player_names")
    (h4 : key ≠ "your_bot") (h5 : key ≠ "your_botid") (h6 : key ≠ "field_width")
    (h7 : key ≠ "field_height") :
    UpdateSetting f key value = f
      ∧ UpdateSettingLog key = ["ERROR: Invalid key \x27" ++ key ++ "\x27\n"]
      ∧ ∀ (ai : BotAi) (text : String) (rest : List String), text ≠ "" →
          Split text ' ' = "settings" :: key :: value :: rest →
          loopStep ai f text
            = some ⟨f, [], ["ERROR: Invalid key \x27" ++ key ++ "\x27\n"], true⟩ := by
  have hu : UpdateSetting f key value = f := by
    simp [UpdateSetting, h1, h2, h3, h4, h5, h6, h7]
  have hl : UpdateSettingLog key = ["ERROR: Invalid key \x27" ++ key ++ "\x27\n"] := by
    simp [UpdateSettingLog, h1, h2, h3, h4, h5, h6, h7]
  refine ⟨hu, hl, ?_⟩
  intro ai text rest hne hs
  simp [loopStep, hne, hs, hu, hl]

/-- C15 for the line "settings foo bar" in the initial state. -/
theorem unknown_setting_key_ignored_witness :
    UpdateSetting initialState "foo" "bar" = initialState
      ∧ UpdateSettingLog "foo" = ["ERROR: Invalid key \x27foo\x27\n"] :=
  ⟨(unknown_setting_key_ignored initialState "foo" "bar" (by decide) (by decide) (by decide)
      (by decide) (by decide) (by decide) (by decide)).1,
    (unknown_setting_key_ignored initialState "foo" "bar" (by decide) (by decide) (by decide)
      (by decide) (by decide) (by decide) (by decide)).2.1⟩

/-- C16: for every GameState and every token list of at least three tokens
scope, key, value, UpdateGame completes and leaves every field unchanged when
scope is "game" and key is none of round, this_piece_type, next_piece_type,
this_piece_position, and also when scope is another string and key is none of
row_points, combo, skips, field; the per-player maps may be nil. -/
theorem unknown_update_key_ignored (f : GameState) (scope key value : String)
    (rest : List String)
    (h : (scope = "game" ∧ key ≠ "round" ∧ key ≠ "this_piece_type"
            ∧ key ≠ "next_piece_type" ∧ key ≠ "this_piece_position")
          ∨ (scope ≠ "game" ∧ key ≠ "row_points" ∧ key ≠ "combo" ∧ key ≠ "skips"
            ∧ key ≠ "field")) :
    UpdateGame f (scope :: key :: value :: rest) = some f := by
  rcases h with ⟨hs, h1, h2, h3, h4⟩ | ⟨hs, h1, h2, h3, h4⟩
  · simp [UpdateGame, hs, h1, h2, h3, h4]
  · simp [UpdateGame, hs, h1, h2, h3, h4]

/-- C16 in the initial state, whose maps are nil: an unknown game key and an
unknown player key are both ignored. -/
theorem unknown_update_key_ignored_witness :
    UpdateGame initialState ["game", "speed", "3"] = some initialState
      ∧ UpdateGame initialState ["p1", "lines", "3"] = some initialState :=
  ⟨unknown_update_key_ignored initialState "game" "speed" "3" [] (by decide),
    unknown_update_key_ignored initialState "p1" "lines" "3" [] (by decide)⟩

theorem toDigitsCore_chars (fuel : Nat) :
    ∀ (n : Nat) (ds : List Char), (∀ c ∈ ds, c.isDigit = true) →
      ∀ c ∈ Nat.toDigitsCore 10 fuel n ds, c.isDigit = true := by
  induction fuel with
  | zero => intro n ds hds c hc; exact hds c hc
  | succ fuel ih =>
    intro n ds hds c hc
    have hd := (digitChar_isDigit (n % 10) (Nat.mod_lt _ (by decide))).1
    have hds2 : ∀ c ∈ Nat.digitChar (n % 10) :: ds, c.isDigit = true := by
      intro c hc
      rcases List.mem_cons.1 hc with h | h
      · rw [h]; exact hd
      · exact hds c h
    unfold Nat.toDigitsCore at hc
    by_cases h0 : n / 10 = 0
    · simp only [h0, if_true] at hc
      exact hds2 c hc
    · simp only [h0, if_false] at hc
      exact ih (n / 10) _ hds2 c hc

/-- The decimal text of an integer consists of digits and possibly a minus
sign. -/
theorem toString_chars (n : Int) :
    ∀ c ∈ (toString n).data, c = '-' ∨ c.isDigit = true := by
  intro c hc
  cases n with
  | ofNat m =>
    have hdata : (toString (Int.ofNat m)).data = Nat.toDigits 10 m := rfl
    rw [hdata] at hc
    exact Or.inr (toDigitsCore_chars _ m [] (by simp) c hc)
  | negSucc m =>
    have hdata : (toString (Int.negSucc m)).data = '-' :: Nat.toDigits 10 (m + 1) := rfl
    rw [hdata] at hc
    rcases List.mem_cons.1 hc with h | h
    · exact Or.inl h
    · exact Or.inr (toDigitsCore_chars _ (m + 1) [] (by simp) c h)

theorem toString_no_sep (n : Int) (sep : Char) (h1 : sep ≠ '-') (h2 : sep.isDigit = false) :
    sep ∉ (toString n).data := by
  intro hmem
  rcases toString_chars n sep hmem with h | h
  · exact h1 h
  · rw [h2] at h; exact Bool.false_ne_true h

theorem Split_action_move (t : Int) :
    Split ("action move " ++ toString t) ' ' = ["action", "move", toString t] := by
  have hdata : ("action move " ++ toString t).data
      = "action".data ++ ' ' :: ("move".data ++ ' ' :: (toString t).data) := by
    rw [String.data_append]; rfl
  unfold Split
  rw [hdata, splitChars_append_sep _ _ _ (by decide), splitChars_append_sep _ _ _ (by decide),
    splitChars_of_not_mem _ _ (toString_no_sep t ' ' (by decide) (by decide))]
  rfl

/-- C11: one iteration of the protocol loop, seen as a step function, writes
exactly one protocol output line, the string returned by GetMove(state, t)
followed by a newline, when the line is "action move t" (t an int in decimal
text; more generally when its tokens are action, move and a third token parsed
by Atoi), and writes no protocol output line for a line of any other form. -/
theorem action_move_writes_one_line (ai : BotAi) (gs : GameState) :
    (∀ t : Int, InIntRange t →
        loopStep ai gs ("action move " ++ toString t)
          = some ⟨gs, [ai gs t ++ "\n"], [], true⟩)
      ∧ (∀ (text tok : String) (rest : List String),
          Split text ' ' = "action" :: "move" :: tok :: rest →
          loopOutput ai gs text = [ai gs (Atoi tok).1 ++ "\n"])
      ∧ (∀ text : String,
          (¬ ∃ tok rest, Split text ' ' = "action" :: "move" :: tok :: rest) →
          loopOutput ai gs text = []) := by
  refine ⟨?_, ?_, ?_⟩
  · intro t ht
    have hne : "action move " ++ toString t ≠ "" := by
      intro h
      have h2 := congrArg String.length h
      simp only [String.length_append] at h2
      have h3 : ("action move ").length = 12 := by decide
      have h4 : ("").length = 0 := by decide
      omega
    simp [loopStep, hne, Split_action_move t, Atoi_toString t ht, WriteLine]
  · intro text tok rest hs
    have hne : text ≠ "" := by
      intro h
      rw [h] at hs
      have h2 := congrArg List.length hs
      have h3 : (Split "" ' ').length = 1 := by decide
      simp only [List.length_cons] at h2
      omega
    simp [loopOutput, loopStep, hne, hs, WriteLine]
  · intro text hform
    unfold loopOutput
    cases hr : loopStep ai gs text with
    | none => rfl
    | some r =>
      show r.output = []
      by_cases hne : text = ""
      · simp only [loopStep, hne, if_true, Option.some.injEq] at hr
        subst hr; rfl
      · obtain ⟨first, rest, hs⟩ := Split_cons text ' '
        simp only [loopStep, hne, if_false, hs, List.getElem?_cons_zero,
          List.getElem?_cons_succ, Option.bind_eq_bind, Option.some_bind, Option.pure_def,
          List.drop_succ_cons, List.drop_zero] at hr
        split_ifs at hr with h1 h2 h3 h4
        · cases rest with
          | nil => simp at hr
          | cons second more =>
            simp only [List.getElem?_cons_zero, Option.some_bind] at hr
            split_ifs at hr with h6
            · cases more with
              | nil => simp at hr
              | cons third more2 =>
                exact absurd ⟨third, more2, by rw [hs, h1, h6]⟩ hform
            · simp only [Option.some.injEq] at hr
              subst hr; rfl
        · cases hg : UpdateGame gs rest with
          | none => simp [hg] at hr
          | some g =>
            simp only [hg, Option.some_bind, Option.some.injEq] at hr
            subst hr; rfl
        · cases hk : rest[0]? with
          | none => simp [hk] at hr
          | some key =>
            cases hv : rest[1]? with
            | none => simp [hk, hv] at hr
            | some value =>
              simp only [hk, hv, Option.some_bind, Option.some.injEq] at hr
              subst hr; rfl
        · simp only [Option.some.injEq] at hr
          subst hr; rfl
        · simp only [Option.some.injEq] at hr
          subst hr; rfl

/-- C11 on the line "action move 500" with a bot that answers "left,drop". -/
theorem action_move_writes_one_line_witness :
    InIntRange 500
      ∧ loopStep (fun _ _ => "left,drop") initialState "action move 500"
          = some ⟨initialState, ["left,drop\n"], [], true⟩
      ∧ loopOutput (fun _ _ => "left,drop") initialState "settings timebank 1000" = [] :=
  ⟨by decide,
    (action_move_writes_one_line (fun _ _ => "left,drop") initialState).1 500 (by decide),
    (action_move_writes_one_line (fun _ _ => "left,drop") initialState).2.2
      "settings timebank 1000" (by
        rintro ⟨tok, rest, h⟩
        have h2 : Split "settings timebank 1000" ' ' = ["settings", "timebank", "1000"] := by
          decide
        rw [h2] at h
        exact absurd (List.cons.inj h).1 (by decide))⟩

theorem splitChars_length (sep : Char) (cs : List Char) :
    (splitChars sep cs).length = cs.count sep + 1 := by
  induction cs with
  | nil => rfl
  | cons c cs ih =>
    unfold splitChars
    by_cases h : c = sep
    · subst h
      simp [ih]
    · have hne : (c == sep) = false := by simp [h]
      simp only [h, if_false, List.count_cons, hne, Bool.false_eq_true, Nat.add_zero]
      cases hs : splitChars sep cs with
      | nil => exact absurd hs (splitChars_ne_nil sep cs)
      | cons piece more =>
        rw [hs] at ih
        simpa using ih

theorem Split_two_le_iff (v : String) : 2 ≤ (Split v ',').length ↔ ',' ∈ v.data := by
  unfold Split
  rw [List.length_map, splitChars_length]
  constructor
  · intro h
    exact List.count_pos_iff.1 (by omega)
  · intro h
    have := List.count_pos_iff.2 h
    omega

theorem UpdateGame_isSome_iff (f : GameState) (values : List String) :
    (UpdateGame f values).isSome ↔ ∃ scope key rest, values = scope :: key :: rest
      ∧ (scope = "game" →
          ((key = "round" ∨ key = "this_piece_type" ∨ key = "next_piece_type") → rest ≠ [])
            ∧ (key = "this_piece_position" →
                ∃ v more, rest = v :: more ∧ ',' ∈ v.data))
      ∧ (scope ≠ "game" →
          (key = "row_points" → rest ≠ [] ∧ f.RowPoints ≠ none)
            ∧ (key = "combo" → rest ≠ [] ∧ f.Combo ≠ none)
            ∧ (key = "skips" → rest ≠ [] ∧ f.Skips ≠ none)
            ∧ (key = "field" → rest ≠ [] ∧ f.GameField ≠ none)) := by
  rcases values with _ | ⟨scope, _ | ⟨key, rest⟩⟩
  · simp [UpdateGame]
  · simp [UpdateGame]
  · have hex : ∀ P : String → String → List String → Prop,
        (∃ a b c, scope :: key :: rest = a :: b :: c ∧ P a b c) ↔ P scope key rest := by
      intro P
      constructor
      · rintro ⟨a, b, c, h, hp⟩
        simp only [List.cons.injEq] at h
        obtain ⟨rfl, rfl, rfl⟩ := h
        exact hp
      · intro hp
        exact ⟨scope, key, rest, rfl, hp⟩
    rw [hex (fun scope key rest => (scope = "game" →
          ((key = "round" ∨ key = "this_piece_type" ∨ key = "next_piece_type") → rest ≠ [])
            ∧ (key = "this_piece_position" →
                ∃ v more, rest = v :: more ∧ ',' ∈ v.data))
      ∧ (scope ≠ "game" →
          (key = "row_points" → rest ≠ [] ∧ f.RowPoints ≠ none)
            ∧ (key = "combo" → rest ≠ [] ∧ f.Combo ≠ none)
            ∧ (key = "skips" → rest ≠ [] ∧ f.Skips ≠ none)
            ∧ (key = "field" → rest ≠ [] ∧ f.GameField ≠ none)))]
    simp only [UpdateGame, List.getElem?_cons_zero, List.getElem?_cons_succ,
      Option.bind_eq_bind, Option.some_bind, Option.pure_def]
    by_cases hs : scope = "game"
    · subst hs
      by_cases h1 : key = "round"
      · cases rest <;> simp [h1]
      by_cases h2 : key = "this_piece_type"
      · cases rest <;> simp [h2]
      by_cases h3 : key = "next_piece_type"
      · cases rest <;> simp [h3]
      by_cases h4 : key = "this_piece_position"
      · cases rest with
        | nil => simp [h4]
        | cons v more =>
          have hiff := Split_two_le_iff v
          rcases hsp : Split v ',' with _ | ⟨a, _ | ⟨b, c⟩⟩
          · have hmem : ¬ ',' ∈ v.data := by
              rw [← hiff, hsp]; simp
            simp [h4, hsp, hmem]
          · have hmem : ¬ ',' ∈ v.data := by
              rw [← hiff, hsp]; simp
            simp [h4, hsp, hmem]
          · have hmem : ',' ∈ v.data := by
              rw [← hiff, hsp]; simp
            simp [h4, hsp, hmem]
      · simp [h1, h2, h3, h4]
    · by_cases h1 : key = "row_points"
      · cases rest <;> cases hm : f.RowPoints <;> simp [hs, h1, hm, mapAssign]
      by_cases h2 : key = "combo"
      · cases rest <;> cases hm : f.Combo <;> simp [hs, h2, hm, mapAssign]
      by_cases h3 : key = "skips"
      · cases rest <;> cases hm : f.Skips <;> simp [hs, h3, hm, mapAssign]
      by_cases h4 : key = "field"
      · cases rest <;> cases hm : f.GameField <;> simp [hs, h4, hm, mapAssign]
      · simp [hs, h1, h2, h3, h4]

theorem UpdateGame_result (f g : GameState) (values : List String)
    (h : UpdateGame f values = some g) :
    ∃ scope key rest, values = scope :: key :: rest
      ∧ (scope = "game" →
          (key = "round" →
              ∃ v more, rest = v :: more ∧ g = { f with GameRound := (Atoi v).1 })
            ∧ (key = "this_piece_type" →
              ∃ v more, rest = v :: more ∧ g = { f with ThisPieceType := v })
            ∧ (key = "next_piece_type" →
              ∃ v more, rest = v :: more ∧ g = { f with NextPieceType := v })
            ∧ (key = "this_piece_position" →
              ∃ v more sx sy tail, rest = v :: more ∧ Split v ',' = sx :: sy :: tail
                ∧ g = { f with ThisPiecePosition := ⟨(Atoi sx).1, (Atoi sy).1⟩ })
            ∧ (key ≠ "round" → key ≠ "this_piece_type" → key ≠ "next_piece_type"
                → key ≠ "this_piece_position" → g = f))
      ∧ (scope ≠ "game" →
          (key = "row_points" →
              ∃ v more m, rest = v :: more ∧ g = { f with RowPoints := m }
                ∧ mapGet m scope = some (Atoi v).1
                ∧ ∀ q, q ≠ scope → mapGet m q = mapGet f.RowPoints q)
            ∧ (key = "combo" →
              ∃ v more m, rest = v :: more ∧ g = { f with Combo := m }
                ∧ mapGet m scope = some (Atoi v).1
                ∧ ∀ q, q ≠ scope → mapGet m q = mapGet f.Combo q)
            ∧ (key = "skips" →
              ∃ v more m, rest = v :: more ∧ g = { f with Skips := m }
                ∧ mapGet m scope = some (Atoi v).1
                ∧ ∀ q, q ≠ scope → mapGet m q = mapGet f.Skips q)
            ∧ (key = "field" →
              ∃ v more m, rest = v :: more ∧ g = { f with GameField := m }
                ∧ mapGet m scope = some (v.data.filter (fun c => c ≠ ','))
                ∧ ∀ q, q ≠ scope → mapGet m q = mapGet f.GameField q)
            ∧ (key ≠ "row_points" → key ≠ "combo" → key ≠ "skips" → key ≠ "field"
                → g = f)) := by
  rcases values with _ | ⟨scope, _ | ⟨key, rest⟩⟩
  · simp [UpdateGame] at h
  · simp [UpdateGame] at h
  · refine ⟨scope, key, rest, rfl, ?_, ?_⟩
    · intro hs
      subst hs
      refine ⟨?_, ?_, ?_, ?_, ?_⟩
      · intro hk
        subst hk
        cases rest with
        | nil => simp [UpdateGame] at h
        | cons v more =>
          simp [UpdateGame] at h
          exact ⟨v, more, rfl, h.symm⟩
      · intro hk
        subst hk
        cases rest with
        | nil => simp [UpdateGame] at h
        | cons v more =>
          simp [UpdateGame] at h
          exact ⟨v, more, rfl, h.symm⟩
      · intro hk
        subst hk
        cases rest with
        | nil => simp [UpdateGame] at h
        | cons v more =>
          simp [UpdateGame] at h
          exact ⟨v, more, rfl, h.symm⟩
      · intro hk
        subst hk
        cases rest with
        | nil => simp [UpdateGame] at h
        | cons v more =>
          rcases hsp : Split v ',' with _ | ⟨sx, _ | ⟨sy, tail⟩⟩
          · simp [UpdateGame, hsp] at h
          · simp [UpdateGame, hsp] at h
          · simp [UpdateGame, hsp] at h
            exact ⟨v, more, sx, sy, tail, rfl, hsp, h.symm⟩
      · intro h1 h2 h3 h4
        simp [UpdateGame, h1, h2, h3, h4] at h
        exact h.symm
    · intro hs
      refine ⟨?_, ?_, ?_, ?_, ?_⟩
      · intro hk
        subst hk
        cases rest with
        | nil => simp [UpdateGame, hs] at h
        | cons v more =>
          cases hm : mapAssign f.RowPoints scope (Atoi v).1 with
          | none => simp [UpdateGame, hs, hm] at h
          | some m =>
            simp [UpdateGame, hs, hm] at h
            obtain ⟨h1, h2⟩ := mapGet_mapAssign _ _ _ _ hm
            exact ⟨v, more, m, rfl, h.symm, h1, h2⟩
      · intro hk
        subst hk
        cases rest with
        | nil => simp [UpdateGame, hs] at h
        | cons v more =>
          cases hm : mapAssign f.Combo scope (Atoi v).1 with
          | none => simp [UpdateGame, hs, hm] at h
          | some m =>
            simp [UpdateGame, hs, hm] at h
            obtain ⟨h1, h2⟩ := mapGet_mapAssign _ _ _ _ hm
            exact ⟨v, more, m, rfl, h.symm, h1, h2⟩
      · intro hk
        subst hk
        cases rest with
        | nil => simp [UpdateGame, hs] at h
        | cons v more =>
          cases hm : mapAssign f.Skips scope (Atoi v).1 with
          | none => simp [UpdateGame, hs, hm] at h
          | some m =>
            simp [UpdateGame, hs, hm] at h
            obtain ⟨h1, h2⟩ := mapGet_mapAssign _ _ _ _ hm
            exact ⟨v, more, m, rfl, h.symm, h1, h2⟩
      · intro hk
        subst hk
        cases rest with
        | nil => simp [UpdateGame, hs] at h
        | cons v more =>
          cases hm : mapAssign f.GameField scope (RemoveAll v ',').data with
          | none => simp [UpdateGame, hs, hm] at h
          | some m =>
            simp [UpdateGame, hs, hm] at h
            obtain ⟨h1, h2⟩ := mapGet_mapAssign _ _ _ _ hm
            exact ⟨v, more, m, rfl, h.symm, h1, h2⟩
      · intro h1 h2 h3 h4
        simp [UpdateGame, hs, h1, h2, h3, h4] at h
        exact h.symm

/-- C13 fails: in the initial state of the loop each of the lines "settings",
"settings timebank", "action", "action move", "update", "update game round",
"update game this_piece_position 3" and "update p1 row_points 5" makes the
iteration panic. -/
theorem short_lines_are_fatal :
    Reachable initialState
      ∧ loopStep (fun _ _ => "drop") initialState "settings" = none
      ∧ loopStep (fun _ _ => "drop") initialState "settings timebank" = none
      ∧ loopStep (fun _ _ => "drop") initialState "action" = none
      ∧ loopStep (fun _ _ => "drop") initialState "action move" = none
      ∧ loopStep (fun _ _ => "drop") initialState "update" = none
      ∧ loopStep (fun _ _ => "drop") initialState "update game round" = none
      ∧ loopStep (fun _ _ => "drop") initialState "update game this_piece_position 3" = none
      ∧ loopStep (fun _ _ => "drop") initialState "update p1 row_points 5" = none :=
  ⟨Reachable.init, by decide, by decide, by decide, by decide, by decide, by decide,
    by decide, by decide⟩

/-- C13 (amended): for every GameState and every line, one iteration of the
protocol loop completes exactly when the line is empty, or its first token is
none of action, update, settings, or it is action with a second token that is
not move or with a third token, or settings with a key and a value token, or
update followed by tokens on which UpdateGame completes; and UpdateGame
completes exactly on a scope and a key, with a value token for each of the
eight known keys, a comma in the value of this_piece_position, and a non-nil
map for row_points, combo, skips and field.  A completing iteration leaves the
GameState produced by the handler: the state of before on an empty line and on
every first token other than update and settings, UpdateSetting(key, value) of
it on settings, and the state returned by UpdateGame on update, which is the
state of before with only the field named by the key replaced (for a player
key only the entry of the scope in that map) and the state of before on an
unknown key. -/
theorem loop_step_completes_iff (ai : BotAi) (gs : GameState) (text : String) :
    ((loopStep ai gs text).isSome ↔
        text = "" ∨ ∃ first rest, Split text ' ' = first :: rest
          ∧ (first = "action" →
              1 ≤ rest.length ∧ (rest[0]? = some "move" → 2 ≤ rest.length))
          ∧ (first = "update" → (UpdateGame gs rest).isSome)
          ∧ (first = "settings" → 2 ≤ rest.length))
      ∧ (∀ values : List String,
          ((UpdateGame gs values).isSome ↔ ∃ scope key rest, values = scope :: key :: rest
            ∧ (scope = "game" →
                ((key = "round" ∨ key = "this_piece_type" ∨ key = "next_piece_type")
                    → rest ≠ [])
                  ∧ (key = "this_piece_position" →
                      ∃ v more, rest = v :: more ∧ ',' ∈ v.data))
            ∧ (scope ≠ "game" →
                (key = "row_points" → rest ≠ [] ∧ gs.RowPoints ≠ none)
                  ∧ (key = "combo" → rest ≠ [] ∧ gs.Combo ≠ none)
                  ∧ (key = "skips" → rest ≠ [] ∧ gs.Skips ≠ none)
                  ∧ (key = "field" → rest ≠ [] ∧ gs.GameField ≠ none))))
      ∧ (∀ r, loopStep ai gs text = some r →
          (text = "" → r.state = gs)
            ∧ ∀ first rest, text ≠ "" → Split text ' ' = first :: rest →
                (first = "update" → UpdateGame gs rest = some r.state)
                  ∧ (first = "settings" →
                      ∃ key value more, rest = key :: value :: more
                        ∧ r.state = UpdateSetting gs key value)
                  ∧ (first ≠ "update" → first ≠ "settings" → r.state = gs))
      ∧ ∀ (values : List String) (g : GameState), UpdateGame gs values = some g →
          ∃ scope key rest, values = scope :: key :: rest
            ∧ (scope = "game" →
                (key = "round" →
                    ∃ v more, rest = v :: more ∧ g = { gs with GameRound := (Atoi v).1 })
                  ∧ (key = "this_piece_type" →
                    ∃ v more, rest = v :: more ∧ g = { gs with ThisPieceType := v })
                  ∧ (key = "next_piece_type" →
                    ∃ v more, rest = v :: more ∧ g = { gs with NextPieceType := v })
                  ∧ (key = "this_piece_position" →
                    ∃ v more sx sy tail, rest = v :: more ∧ Split v ',' = sx :: sy :: tail
                      ∧ g = { gs with ThisPiecePosition := ⟨(Atoi sx).1, (Atoi sy).1⟩ })
                  ∧ (key ≠ "round" → key ≠ "this_piece_type" → key ≠ "next_piece_type"
                      → key ≠ "this_piece_position" → g = gs))
            ∧ (scope ≠ "game" →
                (key = "row_points" →
                    ∃ v more m, rest = v :: more ∧ g = { gs with RowPoints := m }
                      ∧ mapGet m scope = some (Atoi v).1
                      ∧ ∀ q, q ≠ scope → mapGet m q = mapGet gs.RowPoints q)
                  ∧ (key = "combo" →
                    ∃ v more m, rest = v :: more ∧ g = { gs with Combo := m }
                      ∧ mapGet m scope = some (Atoi v).1
                      ∧ ∀ q, q ≠ scope → mapGet m q = mapGet gs.Combo q)
                  ∧ (key = "skips" →
                    ∃ v more m, rest = v :: more ∧ g = { gs with Skips := m }
                      ∧ mapGet m scope = some (Atoi v).1
                      ∧ ∀ q, q ≠ scope → mapGet m q = mapGet gs.Skips q)
                  ∧ (key = "field" →
                    ∃ v more m, rest = v :: more ∧ g = { gs with GameField := m }
                      ∧ mapGet m scope = some (v.data.filter (fun c => c ≠ ','))
                      ∧ ∀ q, q ≠ scope → mapGet m q = mapGet gs.GameField q)
                  ∧ (key ≠ "row_points" → key ≠ "combo" → key ≠ "skips" → key ≠ "field"
                      → g = gs)) := by
  refine ⟨?_, fun values => UpdateGame_isSome_iff gs values, ?_,
    fun values g h => UpdateGame_result gs g values h⟩
  rotate_left
  · intro r hr
    constructor
    · intro he
      simp only [loopStep, he, if_true, Option.some.injEq] at hr
      subst hr; rfl
    · intro first rest hne hs
      simp only [loopStep, hne, if_false, hs, List.getElem?_cons_zero,
        List.getElem?_cons_succ, Option.bind_eq_bind, Option.some_bind, Option.pure_def,
        List.drop_succ_cons, List.drop_zero] at hr
      split_ifs at hr with h1 h2 h3 h4
      · have hu : first ≠ "update" := by rw [h1]; decide
        have hse : first ≠ "settings" := by rw [h1]; decide
        refine ⟨fun h => absurd h hu, fun h => absurd h hse, fun _ _ => ?_⟩
        cases hsec : rest[0]? with
        | none => simp [hsec] at hr
        | some second =>
          simp only [hsec, Option.some_bind] at hr
          split_ifs at hr with h6
          · cases hth : rest[1]? with
            | none => simp [hth] at hr
            | some third =>
              simp only [hth, Option.some_bind, Option.some.injEq] at hr
              subst hr; rfl
          · simp only [Option.some.injEq] at hr
            subst hr; rfl
      · have hse : first ≠ "settings" := by rw [h2]; decide
        refine ⟨fun _ => ?_, fun h => absurd h hse, fun h => absurd h2 h⟩
        cases hg : UpdateGame gs rest with
        | none => simp [hg] at hr
        | some g =>
          simp only [hg, Option.some_bind, Option.some.injEq] at hr
          subst hr; rfl
      · refine ⟨fun h => absurd h h2, fun _ => ?_, fun _ h => absurd h3 h⟩
        rcases rest with _ | ⟨key, _ | ⟨value, more⟩⟩
        · simp at hr
        · simp at hr
        · simp only [List.getElem?_cons_zero, List.getElem?_cons_succ, Option.some_bind,
            Option.some.injEq] at hr
          subst hr
          exact ⟨key, value, more, rfl, rfl⟩
      · simp only [Option.some.injEq] at hr
        subst hr
        exact ⟨fun h => absurd h h2, fun h => absurd h h3, fun _ _ => rfl⟩
      · simp only [Option.some.injEq] at hr
        subst hr
        exact ⟨fun h => absurd h h2, fun h => absurd h h3, fun _ _ => rfl⟩
  · by_cases hne : text = ""
    · simp [loopStep, hne]
    · obtain ⟨first, rest, hs⟩ := Split_cons text ' '
      have hex : ∀ P : String → List String → Prop,
          (∃ a b, Split text ' ' = a :: b ∧ P a b) ↔ P first rest := by
        intro P
        constructor
        · rintro ⟨a, b, h, hp⟩
          rw [hs] at h
          simp only [List.cons.injEq] at h
          obtain ⟨rfl, rfl⟩ := h
          exact hp
        · intro hp
          exact ⟨first, rest, hs, hp⟩
      rw [hex (fun first rest => (first = "action" →
                1 ≤ rest.length ∧ (rest[0]? = some "move" → 2 ≤ rest.length))
            ∧ (first = "update" → (UpdateGame gs rest).isSome)
            ∧ (first = "settings" → 2 ≤ rest.length))]
      simp only [loopStep, hne, if_false, hs, List.getElem?_cons_zero, List.getElem?_cons_succ,
        Option.bind_eq_bind, Option.some_bind, Option.pure_def, List.drop_succ_cons,
        List.drop_zero, false_or]
      by_cases h1 : first = "action"
      · subst h1
        rcases rest with _ | ⟨second, _ | ⟨third, more⟩⟩
        · simp
        · by_cases hm : second = "move" <;> simp [hm]
        · by_cases hm : second = "move" <;> simp [hm]
      by_cases h2 : first = "update"
      · subst h2
        cases hg : UpdateGame gs rest <;> simp [hg]
      by_cases h3 : first = "settings"
      · subst h3
        rcases rest with _ | ⟨key, _ | ⟨value, more⟩⟩ <;> simp
      · by_cases h4 : first = "quit" ∨ first = "end" <;> simp [h1, h2, h3, h4]

/-- C13 (amended) on the line "settings timebank 1000": three tokens, so the
iteration completes, and it leaves the state UpdateSetting("timebank", "1000")
produces. -/
theorem loop_step_completes_iff_witness :
    (loopStep (fun _ _ => "drop") initialState "settings timebank 1000").isSome
      ∧ ∀ r, loopStep (fun _ _ => "drop") initialState "settings timebank 1000" = some r →
          r.state = UpdateSetting initialState "timebank" "1000" :=
  ⟨(loop_step_completes_iff (fun _ _ => "drop") initialState "settings timebank 1000").1.2
      (Or.inr ⟨"settings", ["timebank", "1000"], by decide, by decide, by decide, by decide⟩),
    fun r hr => by
      obtain ⟨key, value, more, hrest, hst⟩ :=
        (((loop_step_completes_iff (fun _ _ => "drop") initialState
            "settings timebank 1000").2.2.1 r hr).2 "settings" ["timebank", "1000"]
          (by decide) (by decide)).2.1 rfl
      simp only [List.cons.injEq] at hrest
      obtain ⟨rfl, rfl, _⟩ := hrest
      exact hst⟩

/-! ## Player ids and the enemy view -/

theorem UpdateGame_ids (f g : GameState) (values : List String)
    (h : UpdateGame f values = some g) :
    g.MyId = f.MyId ∧ g.EnemyId = f.EnemyId := by
  rcases values with _ | ⟨scope, _ | ⟨key, rest⟩⟩
  · simp [UpdateGame] at h
  · simp [UpdateGame] at h
  · simp only [UpdateGame, List.getElem?_cons_zero, List.getElem?_cons_succ,
      Option.bind_eq_bind, Option.some_bind, Option.pure_def] at h
    split_ifs at h
    all_goals first
      | (simp only [Option.some.injEq] at h; subst h; exact ⟨rfl, rfl⟩)
      | (simp only [Option.bind_eq_some, Option.some.injEq] at h
         obtain ⟨_, _, _, _, h⟩ := h
         subst h; exact ⟨rfl, rfl⟩)
      | (simp only [Option.bind_eq_some, Option.some.injEq] at h
         obtain ⟨_, _, h⟩ := h
         subst h; exact ⟨rfl, rfl⟩)
      | (simp only [Option.bind_eq_some, Option.some.injEq] at h
         obtain ⟨_, _, _, _, _, _, h⟩ := h
         subst h; exact ⟨rfl, rfl⟩)

theorem UpdateSetting_ids (f : GameState) (key value : String) :
    (key = "your_botid" →
        (UpdateSetting f key value).MyId = (Atoi value).1
          ∧ (UpdateSetting f key value).EnemyId = xorInt (Atoi value).1 1)
      ∧ (key ≠ "your_botid" →
        (UpdateSetting f key value).MyId = f.MyId
          ∧ (UpdateSetting f key value).EnemyId = f.EnemyId) := by
  constructor
  · intro hk
    subst hk
    simp [UpdateSetting]
  · intro hk
    unfold UpdateSetting
    split_ifs <;> exact ⟨rfl, rfl⟩

theorem applyCalls_ids (calls : List HandlerCall) :
    ∀ f s : GameState, applyCalls f calls = some s →
      (∀ n, lastBotId calls = some n → s.MyId = n ∧ s.EnemyId = xorInt n 1)
        ∧ (lastBotId calls = none → s.MyId = f.MyId ∧ s.EnemyId = f.EnemyId) := by
  induction calls with
  | nil =>
    intro f s h
    simp only [applyCalls, Option.some.injEq] at h
    subst h
    simp [lastBotId]
  | cons call rest ih =>
    intro f s h
    cases call with
    | setting key value =>
      simp only [applyCalls] at h
      obtain ⟨ih1, ih2⟩ := ih _ s h
      obtain ⟨hb, hnb⟩ := UpdateSetting_ids f key value
      cases hl : lastBotId rest with
      | some m =>
        have hlb : lastBotId (HandlerCall.setting key value :: rest) = some m := by
          simp [lastBotId, hl]
        rw [hlb]
        refine ⟨fun n hn => ih1 n (by rw [hl, hn]), fun hn => by cases hn⟩
      | none =>
        obtain ⟨h1, h2⟩ := ih2 hl
        by_cases hk : key = "your_botid"
        · obtain ⟨h3, h4⟩ := hb hk
          have hlb : lastBotId (HandlerCall.setting key value :: rest)
              = some (Atoi value).1 := by
            simp [lastBotId, hl, hk]
          rw [hlb]
          refine ⟨fun n hn => ?_, fun hn => by cases hn⟩
          simp only [Option.some.injEq] at hn
          rw [h1, h2, h3, h4, hn]
          exact ⟨rfl, rfl⟩
        · obtain ⟨h3, h4⟩ := hnb hk
          have hlb : lastBotId (HandlerCall.setting key value :: rest) = none := by
            simp [lastBotId, hl, hk]
          rw [hlb]
          refine ⟨fun n hn => (by cases hn), fun _ => ?_⟩
          rw [h1, h2, h3, h4]
          exact ⟨rfl, rfl⟩
    | game values =>
      simp only [applyCalls] at h
      cases hg : UpdateGame f values with
      | none => simp [hg] at h
      | some g =>
        simp only [hg] at h
        obtain ⟨ih1, ih2⟩ := ih g s h
        obtain ⟨h1, h2⟩ := UpdateGame_ids f g values hg
        refine ⟨fun n hn => ih1 n hn, fun hn => ?_⟩
        obtain ⟨h3, h4⟩ := ih2 hn
        rw [h3, h4, h1, h2]
        exact ⟨rfl, rfl⟩

theorem applyCalls_reachable (calls : List HandlerCall) :
    ∀ f s : GameState, Reachable f → applyCalls f calls = some s → Reachable s := by
  induction calls with
  | nil =>
    intro f s hf h
    simp only [applyCalls, Option.some.injEq] at h
    subst h
    exact hf
  | cons call rest ih =>
    intro f s hf h
    cases call with
    | setting key value =>
      exact ih _ s (Reachable.setting f key value hf) h
    | game values =>
      simp only [applyCalls] at h
      cases hg : UpdateGame f values with
      | none => simp [hg] at h
      | some g =>
        simp only [hg] at h
        exact ih g s (Reachable.game f g values hf hg) h

theorem applyCalls_append (calls : List HandlerCall) (call : HandlerCall) :
    ∀ f g : GameState, applyCalls f calls = some g →
      applyCalls f (calls ++ [call]) = applyCalls g [call] := by
  induction calls with
  | nil =>
    intro f g h
    simp only [applyCalls, Option.some.injEq] at h
    subst h
    rfl
  | cons c rest ih =>
    intro f g h
    cases c with
    | setting key value =>
      simp only [applyCalls, List.cons_append] at h ⊢
      exact ih _ g h
    | game values =>
      simp only [applyCalls, List.cons_append] at h ⊢
      cases hg : UpdateGame f values with
      | none => simp [hg] at h
      | some g2 =>
        simp only [hg] at h ⊢
        exact ih g2 g h

/-- Every state the loop can reach is the state after some sequence of handler
calls from the initial state, and conversely. -/
theorem reachable_iff_applyCalls (s : GameState) :
    Reachable s ↔ ∃ calls, applyCalls initialState calls = some s := by
  constructor
  · intro h
    induction h with
    | init => exact ⟨[], rfl⟩
    | setting f key value _ ih =>
      obtain ⟨calls, hc⟩ := ih
      refine ⟨calls ++ [HandlerCall.setting key value], ?_⟩
      rw [applyCalls_append calls _ initialState f hc]
      rfl
    | game f g values _ hg ih =>
      obtain ⟨calls, hc⟩ := ih
      refine ⟨calls ++ [HandlerCall.game values], ?_⟩
      rw [applyCalls_append calls _ initialState f hc]
      simp [applyCalls, hg]
  · rintro ⟨calls, hc⟩
    exact applyCalls_reachable calls initialState s Reachable.init hc

/-- A sequence of calls has a last bot id exactly when it contains a
`your_botid` setting. -/
theorem lastBotId_isSome_iff (calls : List HandlerCall) :
    (lastBotId calls).isSome ↔ ∃ value, HandlerCall.setting "your_botid" value ∈ calls := by
  induction calls with
  | nil => simp [lastBotId]
  | cons call rest ih =>
    cases call with
    | setting key value =>
      cases hl : lastBotId rest with
      | some m =>
        have hr : ∃ v, HandlerCall.setting "your_botid" v ∈ rest := by
          rw [← ih, hl]; rfl
        obtain ⟨v, hv⟩ := hr
        simp only [lastBotId, hl, Option.isSome_some, true_iff]
        exact ⟨v, List.mem_cons_of_mem _ hv⟩
      | none =>
        have hr : ¬ ∃ v, HandlerCall.setting "your_botid" v ∈ rest := by
          rw [← ih, hl]; simp
        by_cases hk : key = "your_botid"
        · subst hk
          simp only [lastBotId, hl, if_true, Option.isSome_some, true_iff]
          exact ⟨value, List.mem_cons_self _ _⟩
        · simp only [lastBotId, hl, hk, if_false, Option.isSome_none, Bool.false_eq_true,
            false_iff]
          rintro ⟨v, hv⟩
          rcases List.mem_cons.1 hv with h | h
          · simp only [HandlerCall.setting.injEq] at h
            exact hk h.1.symm
          · exact hr ⟨v, h⟩
    | game values =>
      simp only [lastBotId, ih, List.mem_cons, reduceCtorEq, false_or]

/-- C17 fails: in the initial state of the loop MyId and EnemyId are both 0,
so EnemyId is not MyId XOR 1; and after the setting your_botid 5 (a reachable
state) MyId is 5 and EnemyId is 4, outside 0 and 1. -/
theorem ids_invariant_fails :
    Reachable initialState
      ∧ initialState.MyId = 0 ∧ initialState.EnemyId = 0
      ∧ initialState.EnemyId ≠ xorInt initialState.MyId 1
      ∧ Reachable (UpdateSetting initialState "your_botid" "5")
      ∧ (UpdateSetting initialState "your_botid" "5").MyId = 5
      ∧ (UpdateSetting initialState "your_botid" "5").EnemyId = 4 :=
  ⟨Reachable.init, by decide, by decide, by decide,
    Reachable.setting _ _ _ Reachable.init, by decide, by decide⟩

/-- C17 (amended): in every GameState reached from the initial state of the
loop by a sequence of UpdateSetting and UpdateGame calls that contains a
your_botid setting, MyId is the number that Atoi returned for the value of the
last your_botid setting of the sequence, EnemyId = MyId XOR 1, and both ids lie
in 0, 1 exactly when that number is 0 or 1. -/
theorem enemy_id_is_xor_after_botid (calls : List HandlerCall) (s : GameState) (n : Int)
    (hrun : applyCalls initialState calls = some s) (hlast : lastBotId calls = some n) :
    Reachable s ∧ s.MyId = n ∧ s.EnemyId = xorInt s.MyId 1
      ∧ (((s.MyId = 0 ∨ s.MyId = 1) ∧ (s.EnemyId = 0 ∨ s.EnemyId = 1)) ↔ (n = 0 ∨ n = 1)) := by
  obtain ⟨h1, h2⟩ := (applyCalls_ids calls initialState s hrun).1 n hlast
  refine ⟨applyCalls_reachable calls initialState s Reachable.init hrun, h1, ?_, ?_⟩
  · rw [h2, h1]
  · rw [h1, h2]
    constructor
    · intro h; exact h.1
    · intro h
      refine ⟨h, ?_⟩
      rcases h with h | h
      · right; rw [h]; decide
      · left; rw [h]; decide

/-- C17 (amended) for the calls your_botid 0, timebank 1000, your_botid 1,
update game round 5: MyId is 1, the last bot id sent, and EnemyId is 0. -/
theorem enemy_id_is_xor_after_botid_witness :
    ∃ s, applyCalls initialState
          [HandlerCall.setting "your_botid" "0", HandlerCall.setting "timebank" "1000",
            HandlerCall.setting "your_botid" "1", HandlerCall.game ["game", "round", "5"]]
        = some s
      ∧ s.MyId = 1 ∧ s.EnemyId = xorInt s.MyId 1 := by
  have hrun : (applyCalls initialState
      [HandlerCall.setting "your_botid" "0", HandlerCall.setting "timebank" "1000",
        HandlerCall.setting "your_botid" "1", HandlerCall.game ["game", "round", "5"]]).isSome := by
    decide
  obtain ⟨s, hs⟩ := Option.isSome_iff_exists.1 hrun
  obtain ⟨_, h1, h2, _⟩ := enemy_id_is_xor_after_botid _ s 1 hs (by decide)
  exact ⟨s, hs, h1, h2⟩

theorem cell_at_offset (fld : List Char) (width height x y : Int)
    (hlen : (fld.length : Int) = width * height) (hfit : fld.length ≤ maxInt)
    (hx : 0 ≤ x ∧ x < width) (hy : 0 ≤ y ∧ y < height) :
    ∃ cell, fld[(y * width + x).toNat]? = some cell
      ∧ sliceIndex fld (fieldIndex width x y) = some cell := by
  obtain ⟨hi, h0, hlt⟩ := fieldIndex_of_inRange width height x y (by omega) hx hy
  have hsome : (sliceIndex fld (y * width + x)).isSome :=
    (sliceIndex_isSome _ _).2 ⟨h0, by omega⟩
  obtain ⟨cell, hcell⟩ := Option.isSome_iff_exists.1 hsome
  refine ⟨cell, ?_, ?_⟩
  · simpa [sliceIndex, h0] using hcell
  · rw [hi]; exact hcell

/-- C18: for every GameState with MyId in 0, 1 and two player names, the enemy
name PlayerNames[MyId XOR 1] exists, and when GameField of that name holds
exactly FieldWidth*FieldHeight cells (a slice, so at most maxInt of them) and
0 <= x < FieldWidth, 0 <= y < FieldHeight, EnemyFieldValue(x, y) returns
found = true and the cell at offset y*FieldWidth + x of that field.  After the
settings player_names "p1,p2", your_bot "p1", your_botid "0" on any state, the
enemy name is p2 and MyBot is p1, so EnemyFieldValue reads the field of p2 and
MyFieldValue the field of p1. -/
theorem enemy_field_value_in_range (f : GameState) (hid : f.MyId = 0 ∨ f.MyId = 1)
    (hnames : f.PlayerNames.length = 2) :
    (∃ enemy, EnemyName f = some enemy
        ∧ f.PlayerNames[(xorInt f.MyId 1).toNat]? = some enemy
        ∧ ∀ x y : Int,
            ((mapIndex [] f.GameField enemy).length : Int) = f.FieldWidth * f.FieldHeight →
            (mapIndex [] f.GameField enemy).length ≤ maxInt →
            0 ≤ x ∧ x < f.FieldWidth → 0 ≤ y ∧ y < f.FieldHeight →
            ∃ cell,
              (mapIndex [] f.GameField enemy)[(y * f.FieldWidth + x).toNat]? = some cell
                ∧ EnemyFieldValue f x y = some (cell, true))
      ∧ ∀ g : GameState,
          EnemyName (UpdateSetting (UpdateSetting (UpdateSetting g "player_names" "p1,p2")
              "your_bot" "p1") "your_botid" "0") = some "p2"
            ∧ (UpdateSetting (UpdateSetting (UpdateSetting g "player_names" "p1,p2")
              "your_bot" "p1") "your_botid" "0").MyBot = "p1" := by
  constructor
  · have hx1 : xorInt 0 1 = 1 := by decide
    have hx0 : xorInt 1 1 = 0 := by decide
    have hidx : 0 ≤ xorInt f.MyId 1 ∧ xorInt f.MyId 1 < (f.PlayerNames.length : Int) := by
      rcases hid with h | h <;> rw [h, hnames] <;> simp [hx1, hx0]
    have hsome : (EnemyName f).isSome := (sliceIndex_isSome _ _).2 hidx
    obtain ⟨enemy, henemy⟩ := Option.isSome_iff_exists.1 hsome
    refine ⟨enemy, henemy, ?_, ?_⟩
    · simpa [EnemyName, sliceIndex, hidx.1] using henemy
    · intro x y hlen hfit hx hy
      obtain ⟨cell, hc1, hc2⟩ :=
        cell_at_offset _ f.FieldWidth f.FieldHeight x y hlen hfit hx hy
      refine ⟨cell, hc1, ?_⟩
      have hnx : ¬ (x < 0 ∨ x ≥ f.FieldWidth) := by omega
      have hny : ¬ (y < 0 ∨ y ≥ f.FieldHeight) := by omega
      simp [EnemyFieldValue, hnx, hny, henemy, hc2]
  · intro g
    have hs : Split "p1,p2" ',' = ["p1", "p2"] := by decide
    have h0 : Atoi "0" = (0, none) := by decide
    have hx1 : xorInt 0 1 = 1 := by decide
    simp [UpdateSetting, EnemyName, sliceIndex, hs, h0, hx1]

/-- C18 on a 2 by 2 field "abcd" of the enemy p2: the cell at (1, 1) is the
one at offset 3. -/
theorem enemy_field_value_in_range_witness :
    EnemyFieldValue
      { initialState with PlayerNames := ["p1", "p2"], MyBot := "p1", FieldWidth := 2,
                          FieldHeight := 2,
                          GameField := some [("p2", ['a', 'b', 'c', 'd'])] } 1 1
      = some ('d', true) := by
  obtain ⟨⟨enemy, h1, h2, h3⟩, _⟩ := enemy_field_value_in_range
    { initialState with PlayerNames := ["p1", "p2"], MyBot := "p1", FieldWidth := 2,
                        FieldHeight := 2,
                        GameField := some [("p2", ['a', 'b', 'c', 'd'])] }
    (by decide) (by decide)
  have he : enemy = "p2" := by
    have h4 : (["p1", "p2"] : List String)[(1 : Nat)]? = some enemy := h2
    simpa using h4.symm
  subst he
  obtain ⟨cell, h5, h6⟩ := h3 1 1 (by decide) (by decide) (by decide) (by decide)
  have h7 : cell = 'd' := by
    have h8 : (['a', 'b', 'c', 'd'] : List Char)[(3 : Nat)]? = some cell := h5
    simpa using h8.symm
  rw [h6, h7]

/-! ## Per-player counters and the piece position -/

/-- C19: for every GameState whose counter maps are initialised, every scope p
other than "game", every key among row_points, combo, skips and every int n,
UpdateGame([p, key, value]) with value the decimal text of n completes, sets the
entry of p in the map named by the key (RowPoints, Combo, Skips) to n, and
leaves every other entry of that map and every other field of the GameState
unchanged. -/
theorem update_counter_frame (f : GameState) (r c k : List (String × Int)) (p : String)
    (n : Int) (hr : f.RowPoints = some r) (hc : f.Combo = some c) (hk : f.Skips = some k)
    (hp : p ≠ "game") (hn : InIntRange n) :
    (∃ m, UpdateGame f [p, "row_points", toString n] = some { f with RowPoints := m }
        ∧ mapGet m p = some n ∧ ∀ q, q ≠ p → mapGet m q = mapGet f.RowPoints q)
      ∧ (∃ m, UpdateGame f [p, "combo", toString n] = some { f with Combo := m }
        ∧ mapGet m p = some n ∧ ∀ q, q ≠ p → mapGet m q = mapGet f.Combo q)
      ∧ (∃ m, UpdateGame f [p, "skips", toString n] = some { f with Skips := m }
        ∧ mapGet m p = some n ∧ ∀ q, q ≠ p → mapGet m q = mapGet f.Skips q) := by
  have hr2 : mapAssign f.RowPoints p n = some (some ((p, n) :: r.filter (fun e => e.1 ≠ p))) := by
    rw [hr]; rfl
  have hc2 : mapAssign f.Combo p n = some (some ((p, n) :: c.filter (fun e => e.1 ≠ p))) := by
    rw [hc]; rfl
  have hk2 : mapAssign f.Skips p n = some (some ((p, n) :: k.filter (fun e => e.1 ≠ p))) := by
    rw [hk]; rfl
  refine ⟨⟨_, ?_, mapGet_mapAssign _ _ _ _ hr2⟩, ⟨_, ?_, mapGet_mapAssign _ _ _ _ hc2⟩,
    ⟨_, ?_, mapGet_mapAssign _ _ _ _ hk2⟩⟩
  · simp [UpdateGame, hp, Atoi_toString n hn, hr2]
  · simp [UpdateGame, hp, Atoi_toString n hn, hc2]
  · simp [UpdateGame, hp, Atoi_toString n hn, hk2]

/-- C19 for "update alice row_points 12" after the setting player_names. -/
theorem update_counter_frame_witness :
    ∃ m, UpdateGame (UpdateSetting initialState "player_names" "alice,bob")
          ["alice", "row_points", "12"]
        = some { UpdateSetting initialState "player_names" "alice,bob" with RowPoints := m }
      ∧ mapGet m "alice" = some 12 := by
  obtain ⟨⟨m, h1, h2, _⟩, _⟩ := update_counter_frame
    (UpdateSetting initialState "player_names" "alice,bob") [] [] [] "alice" 12
    (by decide) (by decide) (by decide) (by decide) (by decide)
  exact ⟨m, h1, h2⟩

/-- C20: for every GameState and all ints a, b,
UpdateGame(["game", "this_piece_position", value]) with value the decimal texts
of a and b joined by one comma completes, sets ThisPiecePosition to the
position with X = a and Y = b, and leaves every other field unchanged. -/
theorem update_piece_position (f : GameState) (a b : Int) (ha : InIntRange a)
    (hb : InIntRange b) :
    UpdateGame f ["game", "this_piece_position", toString a ++ "," ++ toString b]
      = some { f with ThisPiecePosition := ⟨a, b⟩ } := by
  have hs := Split_pair (toString a) (toString b)
    (toString_no_sep a ',' (by decide) (by decide))
    (toString_no_sep b ',' (by decide) (by decide))
  simp [UpdateGame, hs, Atoi_toString a ha, Atoi_toString b hb]

/-- C20 for the value "3,-1" in the initial state. -/
theorem update_piece_position_witness :
    InIntRange 3 ∧ InIntRange (-1)
      ∧ UpdateGame initialState ["game", "this_piece_position", "3,-1"]
          = some { initialState with ThisPiecePosition := ⟨3, -1⟩ } :=
  ⟨by decide, by decide, by
    have htext : ("3,-1" : String) = toString (3 : Int) ++ "," ++ toString (-1 : Int) := by
      decide
    rw [htext]
    exact update_piece_position initialState 3 (-1) (by decide) (by decide)⟩

/-! ## The random bot -/

theorem moveList_no_comma (t : String) (h : t ∈ moveList) : ',' ∉ t.data := by
  simp only [moveList, List.mem_cons, List.mem_singleton, List.not_mem_nil, or_false] at h
  rcases h with rfl | rfl | rfl | rfl | rfl <;> decide

theorem randomBotLoop_exit (draws : Nat → Nat) (i pos : Nat) (buffer : String)
    (h : ¬ i < Intn draws pos 10) :
    randomBotLoop draws i pos buffer = buffer ++ "drop" := by
  rw [randomBotLoop, if_neg h]

theorem randomBotLoop_step (draws : Nat → Nat) (i pos : Nat) (buffer : String)
    (h : i < Intn draws pos 10) :
    randomBotLoop draws i pos buffer
      = randomBotLoop draws (i + 1) (pos + 2)
          (buffer ++ (moveList.get ⟨Intn draws (pos + 1) moveList.length,
            Nat.mod_lt _ (by decide)⟩ ++ ",")) := by
  rw [randomBotLoop, if_pos h]

theorem randomBotLoop_split (draws : Nat → Nat) (n : Nat) :
    ∀ (i pos : Nat) (buffer : String) (done : List String), 10 - i = n →
      (∀ rest, splitChars ',' (buffer.data ++ rest)
          = done.map String.data ++ splitChars ',' rest) →
      (∀ t ∈ done, t ∈ moveList) →
      ∃ toks, Split (randomBotLoop draws i pos buffer) ',' = toks ++ ["drop"]
        ∧ toks.length ≤ done.length + (9 - i) ∧ ∀ t ∈ toks, t ∈ moveList := by
  have hexit : ∀ (i pos : Nat) (buffer : String) (done : List String),
      ¬ i < Intn draws pos 10 →
      (∀ rest, splitChars ',' (buffer.data ++ rest)
          = done.map String.data ++ splitChars ',' rest) →
      (∀ t ∈ done, t ∈ moveList) →
      ∃ toks, Split (randomBotLoop draws i pos buffer) ',' = toks ++ ["drop"]
        ∧ toks.length ≤ done.length + (9 - i) ∧ ∀ t ∈ toks, t ∈ moveList := by
    intro i pos buffer done hc hq hdone
    refine ⟨done, ?_, by omega, hdone⟩
    rw [randomBotLoop_exit draws i pos buffer hc]
    unfold Split
    rw [String.data_append, hq, splitChars_of_not_mem _ _ (by decide)]
    simp [List.map_append, List.map_map, Function.comp_def]
  induction n with
  | zero =>
    intro i pos buffer done hn hq hdone
    have hlt : Intn draws pos 10 < 10 := Nat.mod_lt _ (by decide)
    exact hexit i pos buffer done (by omega) hq hdone
  | succ n ih =>
    intro i pos buffer done hn hq hdone
    by_cases hc : i < Intn draws pos 10
    · have hlt : Intn draws pos 10 < 10 := Nat.mod_lt _ (by decide)
      have hmem : moveList.get ⟨Intn draws (pos + 1) moveList.length,
          Nat.mod_lt _ (by decide)⟩ ∈ moveList := List.get_mem _ _ _
      rw [randomBotLoop_step draws i pos buffer hc]
      obtain ⟨toks, h1, h2, h3⟩ := ih (i + 1) (pos + 2)
        (buffer ++ (moveList.get ⟨Intn draws (pos + 1) moveList.length,
            Nat.mod_lt _ (by decide)⟩ ++ ","))
        (done ++ [moveList.get ⟨Intn draws (pos + 1) moveList.length,
            Nat.mod_lt _ (by decide)⟩])
        (by omega)
        (by
          intro rest
          have hd : ((",") : String).data = [','] := rfl
          rw [String.data_append, String.data_append, hd, List.append_assoc,
            List.append_assoc, hq, List.singleton_append,
            splitChars_append_sep _ _ _ (moveList_no_comma _ hmem)]
          simp [List.map_append])
        (by
          intro t ht
          rcases List.mem_append.1 ht with h | h
          · exact hdone t h
          · rw [List.mem_singleton.1 h]; exact hmem)
      refine ⟨toks, h1, ?_, h3⟩
      rw [List.length_append, List.length_singleton] at h2
      omega
    · exact hexit i pos buffer done hc hq hdone

theorem loopOutput_action_move (ai : BotAi) (gs : GameState) (text tok : String)
    (rest : List String) (hs : Split text ' ' = "action" :: "move" :: tok :: rest) :
    loopOutput ai gs text = [ai gs (Atoi tok).1 ++ "\n"] := by
  have hne : text ≠ "" := by
    intro h
    rw [h] at hs
    have h2 := congrArg List.length hs
    have h3 : (Split "" ' ').length = 1 := by decide
    simp only [List.length_cons] at h2
    omega
  simp [loopOutput, loopStep, hne, hs, WriteLine]

/-- C12: for every stream of values of rand.Intn, every GameState and every
time budget, RandomBot.GetMove returns a string that, split on the comma, is a
list of at most 9 tokens, each among down, left, right, turnleft, turnright,
followed by the single final token "drop"; so the one line written for an
"action move" line is such a string followed by a newline. -/
theorem random_bot_move_shape (draws : Nat → Nat) (gs : GameState) (t : Int) :
    (∃ toks, Split (RandomBotGetMove draws gs t) ',' = toks ++ ["drop"]
        ∧ toks.length ≤ 9
        ∧ ∀ tok ∈ toks, tok ∈ ["down", "left", "right", "turnleft", "turnright"])
      ∧ ∀ (text tok : String) (rest : List String),
          Split text ' ' = "action" :: "move" :: tok :: rest →
          ∃ move toks, loopOutput (RandomBotGetMove draws) gs text = [move ++ "\n"]
            ∧ Split move ',' = toks ++ ["drop"] ∧ toks.length ≤ 9
            ∧ ∀ tok ∈ toks, tok ∈ ["down", "left", "right", "turnleft", "turnright"] := by
  have hshape : ∀ (g : GameState) (u : Int),
      ∃ toks, Split (RandomBotGetMove draws g u) ',' = toks ++ ["drop"]
        ∧ toks.length ≤ 9
        ∧ ∀ tok ∈ toks, tok ∈ ["down", "left", "right", "turnleft", "turnright"] := by
    intro g u
    obtain ⟨toks, h1, h2, h3⟩ := randomBotLoop_split draws 10 0 0 "" [] rfl
      (by intro rest; rfl) (by intro t ht; cases ht)
    exact ⟨toks, h1, by simpa using h2, h3⟩
  refine ⟨hshape gs t, ?_⟩
  intro text tok rest hs
  obtain ⟨toks, h1, h2, h3⟩ := hshape gs (Atoi tok).1
  exact ⟨_, toks, loopOutput_action_move _ gs text tok rest hs, h1, h2, h3⟩

/-- C12 for the stream whose draws are all 9: nine tokens, then drop. -/
theorem random_bot_move_shape_witness :
    RandomBotGetMove (fun _ => 9) initialState 500
        = "turnright,turnright,turnright,turnright,turnright,turnright,turnright,turnright,turnright,drop"
      ∧ ∃ toks, Split (RandomBotGetMove (fun _ => 9) initialState 500) ',' = toks ++ ["drop"]
        ∧ toks.length ≤ 9
        ∧ ∀ tok ∈ toks, tok ∈ ["down", "left", "right", "turnleft", "turnright"] :=
  ⟨by simp [RandomBotGetMove, randomBotLoop, Intn, moveList]; decide,
    (random_bot_move_shape (fun _ => 9) initialState 500).1⟩

end BlockBattle
